import Mathlib

/-!
Verification development for the simtree hybrid-simulation library.

The core under scrutiny is `simtree/model/evaluator.py` (the demand-driven,
memoizing, cycle-detecting `Evaluator`) and `simtree/simulation.py`
(the `Simulator` with its `step` loop).  Vectors of floats are modelled as
`List ℚ`; numpy operations that matter to the claims (reshape, slice
assignment with clamping and scalar broadcast, sign) are embedded as
explicit partial operations returning `Except`.  Python exceptions are
modelled by the `Err` type; because the Python objects are mutated in
place and keep their mutations when an exception unwinds, every evaluator
operation returns a pair `(result, evaluator)` where the evaluator
component reflects all mutations performed before the error.

The entity classes (`System`, `State`, `Signal`, `ZeroCrossEventSource`)
are not part of the two core files; their fields are modelled from the
specification's data model and from the attributes the core files access
(`signal_index`/`signal_slice`, `shape`, `value`, `derivative_function`,
`event_function`, `update_function`, `input_slice`, `direction`, ...).
User-supplied value / derivative / event functions receive a
`DataProvider` exposing only `time`, `states[...]` and `inputs[...]`;
they are therefore embedded as a small expression language `Expr` whose
evaluation can only query those three facilities.
-/

namespace Simtree

set_option maxRecDepth 400000

/-- Python exception kinds that can escape the embedded code paths.
`valueError` is numpy's generic `ValueError` (failed reshape, failed
broadcast of a slice assignment); `indexError` is numpy's `IndexError`
for an out-of-range scalar index; `algebraicLoop` is the library's own
`AlgebraicLoopException`; `shapeMismatch` is the distinct `ShapeMismatch`
error variant named by the specification's error catalogue (exported by
the model package as `ShapeMismatchError`); `badRef` models dereferencing
an object reference that does not exist in the system (impossible in the
real program, where references are direct); `outOfFuel` is the artefact
of bounding the recursion depth of the demand-driven evaluation. -/
inductive Err where
  | algebraicLoop
  | valueError
  | indexError
  | shapeMismatch
  | badRef
  | outOfFuel
deriving DecidableEq

deriving instance DecidableEq for Except

/-- numpy's `sign` on a scalar. -/
def npSign (x : ℚ) : ℚ :=
  if x < 0 then -1 else if x = 0 then 0 else 1

/-- Read of the slice `v[start : start+len]`; like numpy, the result is
clamped to the available elements. -/
def sliceRead (v : List ℚ) (start len : Nat) : List ℚ :=
  (v.drop start).take len

/-- numpy slice assignment `v[start : start+len] = w`.  The target slice is
clamped to the bounds of `v`; the assignment succeeds when `w` has exactly
the clamped length, or when `w` has length one (numpy broadcast of a
size-one array), and raises `ValueError` otherwise. -/
def npSliceAssign (v : List ℚ) (start len : Nat) (w : List ℚ) :
    Except Err (List ℚ) :=
  let effLen := min len (v.length - start)
  if w.length = effLen then
    .ok (v.take start ++ w ++ v.drop (start + effLen))
  else if w.length = 1 then
    .ok (v.take start ++ List.replicate effLen (w.getD 0 0) ++ v.drop (start + effLen))
  else
    .error .valueError

/-- numpy `asarray(x).reshape(shape)` on a flat value: succeeds exactly
when the number of elements matches the product of the shape (the flat
data itself is unchanged). -/
def npReshape (v : List ℚ) (shape : List Nat) : Except Err (List ℚ) :=
  if v.length = shape.prod then .ok v else .error .valueError

/-- Conversion of an array to a scalar, as performed by a numpy scalar
store `vec[i] = x`: succeeds only for size-one data. -/
def asScalar (v : List ℚ) : Except Err ℚ :=
  match v with
  | [x] => .ok x
  | _ => .error .valueError

/-- numpy elementwise addition with size-one broadcasting. -/
def npAdd (a b : List ℚ) : Except Err (List ℚ) :=
  if a.length = b.length then .ok (List.zipWith (· + ·) a b)
  else if a.length = 1 then .ok (b.map (fun x => a.getD 0 0 + x))
  else if b.length = 1 then .ok (a.map (fun x => x + b.getD 0 0))
  else .error .valueError

/-- numpy row assignment `matrix[i] = w` into a matrix with rows of width
`width`: exact width or a size-one broadcast. -/
def rowAssign (width : Nat) (w : List ℚ) : Except Err (List ℚ) :=
  if w.length = width then .ok w
  else if w.length = 1 then .ok (List.replicate width (w.getD 0 0))
  else .error .valueError

/-- The auxiliary loop of `argminIdx`: scans the remaining entries,
keeping the index of the first minimum seen so far. -/
def argminAux : List ℚ → Nat → Nat → ℚ → Nat
  | [], _, best, _ => best
  | x :: rest, i, best, bestVal =>
    if x < bestVal then argminAux rest (i + 1) i x
    else argminAux rest (i + 1) best bestVal

/-- numpy `argmin`: index of the first minimal entry. -/
def argminIdx : List ℚ → Nat
  | [] => 0
  | x :: rest => argminAux rest 1 0 x

/-- Insertion into a Python `set` modelled as a duplicate-free list. -/
def setInsert (x : Nat) (l : List Nat) : List Nat :=
  if x ∈ l then l else x :: l

/-- Removal from a Python `set` modelled as a list. -/
def setErase (x : Nat) (l : List Nat) : List Nat :=
  l.filter (fun y => y ≠ x)

/-- User functions, which in the source receive a `DataProvider` with the
fields `time`, `states[State]` and `inputs[Port]`, are embedded as
expressions over exactly those capabilities (`timeE`, `stateVal`,
`portVal`) together with constants and arithmetic.  `stateVal` and
`portVal` name the referenced state / signal by its index, the opaque
identity handle of the entity. -/
inductive Expr where
  | constE (v : List ℚ)
  | timeE
  | stateVal (sid : Nat)
  | portVal (sid : Nat)
  | scale (c : ℚ) (e : Expr)
  | add (e₁ e₂ : Expr)
deriving DecidableEq

/-- The `value` of a Signal is either a constant array or a callable
(the source checks `callable(signal.value)`). -/
inductive SigValue where
  | constV (v : List ℚ)
  | fnV (e : Expr)
deriving DecidableEq

/-- Modelled from the spec: a Signal with a `signal_index` (start of its
`signal_slice`), a `shape`, a `value`, and — when the signal is an
`InputSignal` — an `input_index` into the flat input vector. -/
structure Sig where
  signal_index : Nat
  shape : List Nat
  value : SigValue
  input_index : Option Nat
deriving DecidableEq

/-- The `size` of a shaped entity is the product of its shape. -/
def Sig.size (s : Sig) : Nat := s.shape.prod

/-- Modelled from the spec: a State with a `state_index` (start of its
`state_slice`), a `shape`, a `derivative_function` and an
`initial_condition`. -/
structure StateVar where
  state_index : Nat
  shape : List Nat
  derivative_function : Expr
  initial_condition : List ℚ
deriving DecidableEq

def StateVar.size (s : StateVar) : Nat := s.shape.prod

/-- Event handler bodies: a handler receives a `DataProvider` whose
`states` handle is the mutable `StateUpdater`; it can write a computed
value into a State's slice of the working copy (`setState`) and sequence
such writes. -/
inductive UpdProg where
  | skip
  | setState (sid : Nat) (e : Expr)
  | seq (p₁ p₂ : UpdProg)
deriving DecidableEq

/-- Modelled from the spec: a `ZeroCrossEventSource` with an
`event_index`, a scalar `event_function`, and a `direction` in
{-1, 0, +1}.  The handler attribute is the one the `Simulator.step`
source actually reads: a single optional `update_function`.  The unused
`tolerance` attribute is omitted. -/
structure EventSrc where
  event_index : Nat
  event_function : Expr
  direction : Int
  update_function : Option UpdProg
deriving DecidableEq

instance : Inhabited EventSrc := ⟨⟨0, .constE [], 0, none⟩⟩

/-- Modelled from the spec: an `OutputPort` with an `output_index`, a
`shape` and the Signal its connection chain resolves to (`port.signal`). -/
structure OutPort where
  output_index : Nat
  shape : List Nat
  signal : Nat
deriving DecidableEq

def OutPort.size (p : OutPort) : Nat := p.shape.prod

/-- Modelled from the spec: the System root container with its flat-vector
widths and the ordered lists of declared entities. -/
structure Sys where
  num_states : Nat
  num_signals : Nat
  num_events : Nat
  num_inputs : Nat
  num_outputs : Nat
  states : List StateVar
  signals : List Sig
  events : List EventSrc
  outputs : List OutPort
deriving DecidableEq

/-- `System.inputs`: the InputSignals, in declaration order. -/
def Sys.inputs (sys : Sys) : List Sig :=
  sys.signals.filter (fun s => s.input_index.isSome)

/-- Dereference a signal identity handle. -/
def Sys.findSignal (sys : Sys) (sid : Nat) : Option Sig :=
  sys.signals.find? (fun s => s.signal_index = sid)

/-- Dereference a state identity handle. -/
def Sys.findState (sys : Sys) (sid : Nat) : Option StateVar :=
  sys.states.find? (fun s => s.state_index = sid)

/-- The spec's registry invariants for a System: every slice is in
bounds and of positive size, slices of the same kind do not overlap, and
event indices are in range. -/
def Sys.WF (sys : Sys) : Prop :=
  (∀ s ∈ sys.signals, s.signal_index + s.size ≤ sys.num_signals ∧ 0 < s.size ∧
      ∀ i ∈ s.input_index, i + s.size ≤ sys.num_inputs) ∧
  sys.signals.Pairwise (fun a b =>
      a.signal_index + a.size ≤ b.signal_index ∨
      b.signal_index + b.size ≤ a.signal_index) ∧
  (∀ s ∈ sys.states, s.state_index + s.size ≤ sys.num_states ∧ 0 < s.size) ∧
  sys.states.Pairwise (fun a b =>
      a.state_index + a.size ≤ b.state_index ∨
      b.state_index + b.size ≤ a.state_index) ∧
  (∀ e ∈ sys.events, e.event_index < sys.num_events)

instance (sys : Sys) : Decidable sys.WF := by
  unfold Sys.WF; infer_instance

/-- The `Evaluator` object of `simtree/model/evaluator.py`.  Fields map
to the Python attributes: `state` is `_state`, `derivV` is
`_state_derivative`, `sigV` is `_signals`, `eventV` is `_event_values`;
the `valid*` lists are the validity sets, `evalSet` / `evalStack` are
`signal_evaluation_set` / `signal_evaluation_stack` (stack top at the
head).  `callLog` is instrumentation with no counterpart in the data flow:
it records, in order, the index of every signal whose callable `value`
function is invoked. -/
structure Evaluator where
  time : ℚ
  system : Sys
  state : List ℚ
  derivV : List ℚ
  validDerivs : List Nat
  sigV : List ℚ
  validSignals : List Nat
  evalSet : List Nat
  evalStack : List Nat
  eventV : List ℚ
  validEvents : List Nat
  callLog : List Nat
deriving DecidableEq

/-- `Evaluator.__init__` with `inputs=None`: a missing state defaults to
`np.zeros(num_states)`; the derivative / signal / event vectors start as
fresh arrays of the appropriate widths (`np.empty` is modelled as zeros:
its cell values are unspecified in the source and no claim depends on
them before they are written). -/
def Evaluator.init (time : ℚ) (sys : Sys) (state : Option (List ℚ)) :
    Evaluator :=
  { time := time
    system := sys
    state := state.getD (List.replicate sys.num_states 0)
    derivV := List.replicate sys.num_states 0
    validDerivs := []
    sigV := List.replicate sys.num_signals 0
    validSignals := []
    evalSet := []
    evalStack := []
    eventV := List.replicate sys.num_events 0
    validEvents := []
    callLog := [] }

/-- The input-preloading loop of `Evaluator.__init__`: for each
InputSignal, `self._signals[signal.signal_slice] = inputs[signal.input_slice]`
followed by `self.valid_signals.add(signal)`. -/
def preloadFold (u : List ℚ) : Evaluator → List Sig → Except Err Evaluator
  | ev, [] => .ok ev
  | ev, s :: rest =>
    match npSliceAssign ev.sigV s.signal_index s.size
        (sliceRead u (s.input_index.getD 0) s.size) with
    | .error e => .error e
    | .ok sv =>
      preloadFold u
        { ev with sigV := sv,
                  validSignals := setInsert s.signal_index ev.validSignals }
        rest

/-- `Evaluator.__init__` with an input vector: every InputSignal is
preloaded into the signal vector and marked valid before any
evaluation. -/
def Evaluator.initWithInputs (time : ℚ) (sys : Sys) (state : Option (List ℚ))
    (u : List ℚ) : Except Err Evaluator :=
  preloadFold u (Evaluator.init time sys state) sys.inputs

/-- `Evaluator.get_state_value`: a read of the State's slice of `_state`,
reshaped to the State's shape. -/
def Evaluator.get_state_value (ev : Evaluator) (st : StateVar) :
    Except Err (List ℚ) :=
  npReshape (sliceRead ev.state st.state_index st.size) st.shape

/-- Evaluation of a user expression against a `DataProvider`, parametric
in the port-reading capability `gp` (`data.inputs[port]`), so the same
code serves the signal/derivative/event context and, with a different
state source, the handler context.  `data.time` is the evaluator's time
as a one-element array, `data.states[s]` is `get_state_value`. -/
def evalExprWith (gp : Evaluator → Nat → Except Err (List ℚ) × Evaluator) :
    Expr → Evaluator → Except Err (List ℚ) × Evaluator
  | .constE v, ev => (.ok v, ev)
  | .timeE, ev => (.ok [ev.time], ev)
  | .stateVal sid, ev =>
    match ev.system.findState sid with
    | none => (.error .badRef, ev)
    | some st => (ev.get_state_value st, ev)
  | .portVal sid, ev => gp ev sid
  | .scale c e, ev =>
    match evalExprWith gp e ev with
    | (.ok v, ev') => (.ok (v.map (fun x => c * x)), ev')
    | (.error er, ev') => (.error er, ev')
  | .add e₁ e₂, ev =>
    match evalExprWith gp e₁ ev with
    | (.error er, ev') => (.error er, ev')
    | (.ok v₁, ev₁) =>
      match evalExprWith gp e₂ ev₁ with
      | (.error er, ev') => (.error er, ev')
      | (.ok v₂, ev₂) => (npAdd v₁ v₂, ev₂)

/-- `Evaluator.get_port_value`.  The port argument has already been
resolved to its source Signal (`signal = port.signal`; a Signal is its
own resolution).  In order: the memoized value is returned if the signal
is valid; a signal already being evaluated raises
`AlgebraicLoopException`; otherwise the signal is pushed onto the
evaluation set and stack, its value is computed (invoking the callable
`value` on a `DataProvider` — recorded in `callLog` — or taking the
constant), reshaped to the declared shape, stored into `_signals`, the
signal is marked valid, popped from set and stack, and the value is
returned.  A raised error propagates without the removal step, exactly
as in the source (which has no `try`/`finally`).  Recursion depth is
bounded by `fuel`. -/
def get_port_value : Nat → Evaluator → Sig → Except Err (List ℚ) × Evaluator
  | 0, ev, _ => (.error .outOfFuel, ev)
  | fuel + 1, ev, sig =>
    if sig.signal_index ∈ ev.validSignals then
      (npReshape (sliceRead ev.sigV sig.signal_index sig.size) sig.shape, ev)
    else if sig.signal_index ∈ ev.evalSet then
      (.error .algebraicLoop, ev)
    else
      let ev₁ := { ev with evalSet := setInsert sig.signal_index ev.evalSet,
                           evalStack := sig.signal_index :: ev.evalStack }
      let body :=
        match sig.value with
        | .fnV e =>
          evalExprWith
            (fun e' sid =>
              match e'.system.findSignal sid with
              | none => (.error .badRef, e')
              | some s => get_port_value fuel e' s)
            e { ev₁ with callLog := ev₁.callLog ++ [sig.signal_index] }
        | .constV v => (.ok v, ev₁)
      match body with
      | (.error er, ev₂) => (.error er, ev₂)
      | (.ok raw, ev₂) =>
        match npReshape raw sig.shape with
        | .error er => (.error er, ev₂)
        | .ok sv =>
          match npSliceAssign ev₂.sigV sig.signal_index sig.size sv with
          | .error er => (.error er, ev₂)
          | .ok sigV' =>
            (.ok sv,
             { ev₂ with sigV := sigV',
                        validSignals := setInsert sig.signal_index ev₂.validSignals,
                        evalSet := setErase sig.signal_index ev₂.evalSet,
                        evalStack := ev₂.evalStack.tail })

/-- Port access through an identity handle: dereference, then
`get_port_value`. -/
def get_port_value_by_id (fuel : Nat) (ev : Evaluator) (sid : Nat) :
    Except Err (List ℚ) × Evaluator :=
  match ev.system.findSignal sid with
  | none => (.error .badRef, ev)
  | some s => get_port_value fuel ev s

/-- Invocation of a user function with the ordinary `DataProvider`
(state reads from `_state`, port reads through the evaluator). -/
def evalUserFn (fuel : Nat) (e : Expr) (ev : Evaluator) :
    Except Err (List ℚ) × Evaluator :=
  evalExprWith
    (fun e' sid =>
      match e'.system.findSignal sid with
      | none => (.error .badRef, e')
      | some s => get_port_value fuel e' s)
    e ev

/-- `Evaluator.get_state_derivative`: the memoized derivative if the
state is valid; otherwise the user `derivative_function` is invoked on a
`DataProvider`, its result reshaped to the State's shape, stored into
`_state_derivative`, and the state marked valid. -/
def get_state_derivative (fuel : Nat) (ev : Evaluator) (st : StateVar) :
    Except Err (List ℚ) × Evaluator :=
  if st.state_index ∈ ev.validDerivs then
    (npReshape (sliceRead ev.derivV st.state_index st.size) st.shape, ev)
  else
    match evalUserFn fuel st.derivative_function ev with
    | (.error er, ev') => (.error er, ev')
    | (.ok raw, ev') =>
      match npReshape raw st.shape with
      | .error er => (.error er, ev')
      | .ok sv =>
        match npSliceAssign ev'.derivV st.state_index st.size sv with
        | .error er => (.error er, ev')
        | .ok derivV' =>
          (.ok sv,
           { ev' with derivV := derivV',
                      validDerivs := setInsert st.state_index ev'.validDerivs })

/-- `Evaluator.get_event_value`: the memoized scalar if the event is
valid; otherwise the `event_function` is invoked, its scalar result
stored at `_event_values[event.event_index]`, and the event marked
valid. -/
def get_event_value (fuel : Nat) (ev : Evaluator) (event : EventSrc) :
    Except Err ℚ × Evaluator :=
  if event.event_index ∈ ev.validEvents then
    (match ev.eventV[event.event_index]? with
     | some x => .ok x
     | none => .error .indexError, ev)
  else
    match evalUserFn fuel event.event_function ev with
    | (.error er, ev') => (.error er, ev')
    | (.ok raw, ev') =>
      match asScalar raw with
      | .error er => (.error er, ev')
      | .ok x =>
        if event.event_index < ev'.eventV.length then
          (.ok x,
           { ev' with eventV := ev'.eventV.set event.event_index x,
                      validEvents := setInsert event.event_index ev'.validEvents })
        else (.error .indexError, ev')

/-- The loop of the `signals` property: trigger `get_port_value` for each
signal of the system in declaration order. -/
def signals_fold (fuel : Nat) : Evaluator → List Sig →
    Except Err Unit × Evaluator
  | ev, [] => (.ok (), ev)
  | ev, s :: rest =>
    match get_port_value fuel ev s with
    | (.error er, ev') => (.error er, ev')
    | (.ok _, ev') => signals_fold fuel ev' rest

/-- The `Evaluator.signals` property: evaluate every signal, then return
the flat `_signals` vector. -/
def Evaluator.signals (fuel : Nat) (ev : Evaluator) :
    Except Err (List ℚ) × Evaluator :=
  match signals_fold fuel ev ev.system.signals with
  | (.error er, ev') => (.error er, ev')
  | (.ok _, ev') => (.ok ev'.sigV, ev')

/-- The loop of the `state_derivative` property. -/
def derivs_fold (fuel : Nat) : Evaluator → List StateVar →
    Except Err Unit × Evaluator
  | ev, [] => (.ok (), ev)
  | ev, s :: rest =>
    match get_state_derivative fuel ev s with
    | (.error er, ev') => (.error er, ev')
    | (.ok _, ev') => derivs_fold fuel ev' rest

/-- The `Evaluator.state_derivative` property: trigger the calculation of
every state derivative, then return the flat `_state_derivative`
vector. -/
def Evaluator.state_derivative (fuel : Nat) (ev : Evaluator) :
    Except Err (List ℚ) × Evaluator :=
  match derivs_fold fuel ev ev.system.states with
  | (.error er, ev') => (.error er, ev')
  | (.ok _, ev') => (.ok ev'.derivV, ev')

/-- The loop of the `event_values` property. -/
def events_fold (fuel : Nat) : Evaluator → List EventSrc →
    Except Err Unit × Evaluator
  | ev, [] => (.ok (), ev)
  | ev, e :: rest =>
    match get_event_value fuel ev e with
    | (.error er, ev') => (.error er, ev')
    | (.ok _, ev') => events_fold fuel ev' rest

/-- The `Evaluator.event_values` property: trigger the calculation of
every event value, then return the flat `_event_values` vector. -/
def Evaluator.event_values (fuel : Nat) (ev : Evaluator) :
    Except Err (List ℚ) × Evaluator :=
  match events_fold fuel ev ev.system.events with
  | (.error er, ev') => (.error er, ev')
  | (.ok _, ev') => (.ok ev'.eventV, ev')

/-- The loop of the `inputs` property: for each InputSignal, evaluate it
and write the flattened value into the accumulator at the signal's
`input_slice`. -/
def inputs_acc_fold (fuel : Nat) : Evaluator → List ℚ → List Sig →
    Except Err (List ℚ) × Evaluator
  | ev, acc, [] => (.ok acc, ev)
  | ev, acc, s :: rest =>
    match get_port_value fuel ev s with
    | (.error er, ev') => (.error er, ev')
    | (.ok v, ev') =>
      match npSliceAssign acc (s.input_index.getD 0) s.size v with
      | .error er => (.error er, ev')
      | .ok acc' => inputs_acc_fold fuel ev' acc' rest

/-- The `Evaluator.inputs` property.  The source allocates the
accumulator as `np.empty(self.system.num_outputs)` — with `num_outputs`,
not `num_inputs` (modelled as zeros of that length). -/
def Evaluator.inputs (fuel : Nat) (ev : Evaluator) :
    Except Err (List ℚ) × Evaluator :=
  inputs_acc_fold fuel ev (List.replicate ev.system.num_outputs 0)
    ev.system.inputs

/-- The loop of the `outputs` property: for each OutputPort, resolve it
to its source signal, evaluate, and write the flattened value at the
port's `output_slice`. -/
def outputs_acc_fold (fuel : Nat) : Evaluator → List ℚ → List OutPort →
    Except Err (List ℚ) × Evaluator
  | ev, acc, [] => (.ok acc, ev)
  | ev, acc, p :: rest =>
    match get_port_value_by_id fuel ev p.signal with
    | (.error er, ev') => (.error er, ev')
    | (.ok v, ev') =>
      match npSliceAssign acc p.output_index p.size v with
      | .error er => (.error er, ev')
      | .ok acc' => outputs_acc_fold fuel ev' acc' rest

/-- The `Evaluator.outputs` property (`np.empty(num_outputs)` modelled as
zeros). -/
def Evaluator.outputs (fuel : Nat) (ev : Evaluator) :
    Except Err (List ℚ) × Evaluator :=
  outputs_acc_fold fuel ev (List.replicate ev.system.num_outputs 0)
    ev.system.outputs

/-- Evaluation of a handler-side expression: inside an event handler the
`DataProvider.states` handle is the `StateUpdater`, so `stateVal` reads
the working copy `ns` of the new state
(`new_state[start:end].reshape(shape)`), while `portVal` still reads
through the update evaluator. -/
def evalHandlerExpr (fuel : Nat) (ns : List ℚ) :
    Expr → Evaluator → Except Err (List ℚ) × Evaluator
  | .constE v, ev => (.ok v, ev)
  | .timeE, ev => (.ok [ev.time], ev)
  | .stateVal sid, ev =>
    match ev.system.findState sid with
    | none => (.error .badRef, ev)
    | some st =>
      (npReshape (sliceRead ns st.state_index st.size) st.shape, ev)
  | .portVal sid, ev => get_port_value_by_id fuel ev sid
  | .scale c e, ev =>
    match evalHandlerExpr fuel ns e ev with
    | (.ok v, ev') => (.ok (v.map (fun x => c * x)), ev')
    | (.error er, ev') => (.error er, ev')
  | .add e₁ e₂, ev =>
    match evalHandlerExpr fuel ns e₁ ev with
    | (.error er, ev') => (.error er, ev')
    | (.ok v₁, ev₁) =>
      match evalHandlerExpr fuel ns e₂ ev₁ with
      | (.error er, ev') => (.error er, ev')
      | (.ok v₂, ev₂) => (npAdd v₁ v₂, ev₂)

/-- Execution of an event handler body against the `StateUpdater`'s
working copy: `setState` is `StateUpdater.__setitem__`, i.e.
`new_state[state_index : state_index+size] = np.asarray(value).flatten()`. -/
def run_update (fuel : Nat) : UpdProg → List ℚ → Evaluator →
    Except Err (List ℚ) × Evaluator
  | .skip, ns, ev => (.ok ns, ev)
  | .setState sid e, ns, ev =>
    match evalHandlerExpr fuel ns e ev with
    | (.error er, ev') => (.error er, ev')
    | (.ok v, ev') =>
      match ev'.system.findState sid with
      | none => (.error .badRef, ev')
      | some st =>
        match npSliceAssign ns st.state_index st.size v with
        | .error er => (.error er, ev')
        | .ok ns' => (.ok ns', ev')
  | .seq p₁ p₂, ns, ev =>
    match run_update fuel p₁ ns ev with
    | (.error er, ev') => (.error er, ev')
    | (.ok ns', ev') => run_update fuel p₂ ns' ev'

/-- One run of the pluggable integrator, with the interface
`Simulator.step` uses: `step()` yields a solver message (or `None`), or
raises; afterwards `t`, `y` hold the advanced time and state and
`dense_output()` yields the interpolant over the step interval. -/
structure IntegratorRun where
  message : Except Err (Option String)
  t : ℚ
  y : List ℚ
  dense_output : ℚ → List ℚ

/-- One recorded sample of a `SimulationResult`. -/
structure Sample where
  t : ℚ
  inputs : List ℚ
  state : List ℚ
  signals : List ℚ
  events : List ℚ
  outputs : List ℚ
deriving DecidableEq

/-- `SimulationResult.append`: each column row-assigns the given vector
into storage of the column's fixed width (the geometric resizing of the
numpy buffers does not change the observable `[0, count)` contents, so
the store is modelled as the list of rows). -/
def resultAppend (sys : Sys) (rows : List Sample) (t : ℚ)
    (inputs state signals events outputs : List ℚ) :
    Except Err (List Sample) := do
  let ri ← rowAssign sys.num_inputs inputs
  let rst ← rowAssign sys.num_states state
  let rsg ← rowAssign sys.num_signals signals
  let rev ← rowAssign sys.num_events events
  let ro ← rowAssign sys.num_outputs outputs
  pure (rows ++ [{ t := t, inputs := ri, state := rst, signals := rsg,
                   events := rev, outputs := ro }])

/-- The `Simulator` object of `simtree/simulation.py`.  The integrator
and root-finder constructors are the pluggable parameters (their keyword
options are absorbed into the constructor closures).  `handler_log` is
instrumentation recording the `event_index` of each event whose
`update_function` is invoked, in dispatch order. -/
structure Simulator where
  system : Sys
  start_time : ℚ
  initial_condition : List ℚ
  integrator_constructor :
    (ℚ → List ℚ → Except Err (List ℚ)) → ℚ → List ℚ → Option ℚ → IntegratorRun
  rootfinder_constructor :
    (ℚ → Except Err ℚ) → ℚ → ℚ → Except Err ℚ
  current_time : ℚ
  current_state : List ℚ
  current_inputs : List ℚ
  current_signals : List ℚ
  current_event_values : List ℚ
  current_outputs : List ℚ
  result : List Sample
  handler_log : List Nat

/-- `Simulator.state_derivative`: the right-hand side handed to the
integrator — a fresh Evaluator at `(time, state)` whose
`state_derivative` vector is returned. -/
def Simulator.state_derivative (sim : Simulator) (fuel : Nat) :
    ℚ → List ℚ → Except Err (List ℚ) :=
  fun time state =>
    (Evaluator.state_derivative fuel
      (Evaluator.init time sim.system (some state))).1

/-- The event-detection comparison of `Simulator.step`:
`np.flatnonzero(np.sign(last_event_values) != np.sign(new_event_values))`
over the `num_events`-wide event vectors.  The events' `direction`
attribute plays no part. -/
def detect_events (num_events : Nat) (last new : List ℚ) : List Nat :=
  (List.range num_events).filter
    (fun i => npSign (last.getD i 0) != npSign (new.getD i 0))

/-- `Simulator.find_first_event`: for each event that occurred, localize
its root in `[start_time, end_time]` with the pluggable root-finder
applied to the event value along the dense state trajectory; then pick
the event whose root time is minimal (`np.argmin`: first minimum, so
ties go to the lower list index). -/
def Simulator.find_first_event (sim : Simulator) (fuel : Nat)
    (state_trajectory : ℚ → List ℚ) (start_time end_time : ℚ)
    (events_occurred : List EventSrc) : Except Err (EventSrc × ℚ) := do
  let event_times ← events_occurred.mapM (fun event =>
    sim.rootfinder_constructor
      (fun time =>
        (get_event_value fuel
          (Evaluator.init time sim.system (some (state_trajectory time)))
          event).1)
      start_time end_time)
  let m := argminIdx event_times
  pure (events_occurred.getD m default, event_times.getD m 0)

/-- `Simulator.step`.  An integrator failure message is returned with the
simulator untouched; otherwise events are detected by comparing signs of
the event vectors; with no event the integrator endpoint is accepted and
recorded; with events, the first event is localized, `current_time`
advances to the root time plus the `1.E-3` jitter, the single optional
`update_function` of the first event is dispatched on a `StateUpdater`
working copy, and the post-event instant is evaluated and recorded.
Errors raised anywhere propagate. -/
def Simulator.step (fuel : Nat) (sim : Simulator) (t_bound : Option ℚ) :
    Except Err (Option String × Simulator) := do
  let last_time := sim.current_time
  let last_event_values := sim.current_event_values
  let integrator := sim.integrator_constructor (sim.state_derivative fuel)
      sim.current_time sim.current_state t_bound
  let message ← integrator.message
  match message with
  | some msg => pure (some msg, sim)
  | none =>
    match Evaluator.event_values fuel
        (Evaluator.init integrator.t sim.system (some integrator.y)) with
    | (.error er, _) => throw er
    | (.ok new_event_values, ev₁) =>
      let event_indices :=
        detect_events sim.system.num_events last_event_values new_event_values
      if event_indices.isEmpty then
        match Evaluator.inputs fuel ev₁ with
        | (.error er, _) => throw er
        | (.ok ci, ev₂) =>
          match Evaluator.signals fuel ev₂ with
          | (.error er, _) => throw er
          | (.ok cs, ev₃) =>
            match Evaluator.event_values fuel ev₃ with
            | (.error er, _) => throw er
            | (.ok cev, ev₄) =>
              match Evaluator.outputs fuel ev₄ with
              | (.error er, _) => throw er
              | (.ok co, _) => do
                let rows ← resultAppend sim.system sim.result integrator.t
                    ci integrator.y cs cev co
                pure (none,
                  { sim with current_time := integrator.t,
                             current_state := integrator.y,
                             current_inputs := ci,
                             current_signals := cs,
                             current_event_values := cev,
                             current_outputs := co,
                             result := rows })
      else do
        let events_occurred :=
          event_indices.map (fun idx => sim.system.events.getD idx default)
        let state_interpolator := integrator.dense_output
        let fe ← sim.find_first_event fuel state_interpolator last_time
            integrator.t events_occurred
        let new_time := fe.2 + 1 / 1000
        let interp_state := state_interpolator new_time
        let hstep ←
          match fe.1.update_function with
          | none => pure (interp_state, ([] : List Nat))
          | some prog =>
            let update_ev := Evaluator.init new_time sim.system (some interp_state)
            match run_update fuel prog update_ev.state update_ev with
            | (.error er, _) => throw er
            | (.ok ns, _) => pure (ns, [fe.1.event_index])
        match Evaluator.inputs fuel
            (Evaluator.init new_time sim.system (some hstep.1)) with
        | (.error er, _) => throw er
        | (.ok ci, ev₂) =>
          match Evaluator.signals fuel ev₂ with
          | (.error er, _) => throw er
          | (.ok cs, ev₃) =>
            match Evaluator.event_values fuel ev₃ with
            | (.error er, _) => throw er
            | (.ok cev, ev₄) =>
              match Evaluator.outputs fuel ev₄ with
              | (.error er, _) => throw er
              | (.ok co, _) => do
                let rows ← resultAppend sim.system sim.result new_time
                    ci hstep.1 cs cev co
                pure (none,
                  { sim with current_time := new_time,
                             current_state := hstep.1,
                             current_inputs := ci,
                             current_signals := cs,
                             current_event_values := cev,
                             current_outputs := co,
                             result := rows,
                             handler_log := sim.handler_log ++ hstep.2 })

/-- The spec's scenario S3: a signal `A` whose value function demands `A`
itself. -/
def c2sigA : Sig :=
  { signal_index := 0, shape := [1], value := .fnV (.portVal 0),
    input_index := none }

def c2sys : Sys :=
  { num_states := 0, num_signals := 1, num_events := 0, num_inputs := 0,
    num_outputs := 0, states := [], signals := [c2sigA], events := [],
    outputs := [] }

/-- A signal declared with shape `(2,)` whose value is a length-one
constant: its evaluation fails in the reshape step. -/
def c3sig : Sig :=
  { signal_index := 0, shape := [2], value := .constV [5],
    input_index := none }

def c3sys : Sys :=
  { num_states := 0, num_signals := 2, num_events := 0, num_inputs := 0,
    num_outputs := 0, states := [], signals := [c3sig], events := [],
    outputs := [] }

/-- The spec's scenario S5: a state declared with shape `(2,)` whose
derivative function returns a scalar. -/
def c4st : StateVar :=
  { state_index := 0, shape := [2], derivative_function := .constE [0],
    initial_condition := [0, 0] }

def c4sys : Sys :=
  { num_states := 2, num_signals := 0, num_events := 0, num_inputs := 0,
    num_outputs := 0, states := [c4st], signals := [], events := [],
    outputs := [] }

/-- A signal declared with shape `(2,)` whose user-supplied VALUE FUNCTION
returns a scalar: the callable branch of `get_port_value` fails in the
reshape step. -/
def c4sig : Sig :=
  { signal_index := 0, shape := [2], value := .fnV (.constE [0]),
    input_index := none }

def c4sigsys : Sys :=
  { num_states := 0, num_signals := 2, num_events := 0, num_inputs := 0,
    num_outputs := 0, states := [], signals := [c4sig], events := [],
    outputs := [] }

/-- A system with one size-2 InputSignal and no outputs, so that
`num_inputs = 2` while `num_outputs = 0`. -/
def c6sig : Sig :=
  { signal_index := 0, shape := [2], value := .constV [1, 2],
    input_index := some 0 }

def c6sys : Sys :=
  { num_states := 0, num_signals := 2, num_events := 0, num_inputs := 2,
    num_outputs := 0, states := [], signals := [c6sig], events := [],
    outputs := [] }

/-- A zero-crossing event with `direction = -1` whose event function
`t - 1` makes a strictly positive-going crossing, with a handler
registered so that its dispatch is observable. -/
def c1event : EventSrc :=
  { event_index := 0, event_function := .add .timeE (.constE [-1]),
    direction := -1, update_function := some .skip }

def c1sys : Sys :=
  { num_states := 0, num_signals := 0, num_events := 1, num_inputs := 0,
    num_outputs := 0, states := [], signals := [], events := [c1event],
    outputs := [] }

/-- A simulator mid-simulation at `t = 0` with `last_event_values = [-1]`,
whose integrator advances to `t = 2` in one step and whose root-finder
locates the crossing at `t = 1`. -/
def c1sim : Simulator :=
  { system := c1sys, start_time := 0, initial_condition := [],
    integrator_constructor := fun _ _ _ _ =>
      { message := .ok none, t := 2, y := [], dense_output := fun _ => [] },
    rootfinder_constructor := fun _ _ _ => .ok 1,
    current_time := 0, current_state := [], current_inputs := [],
    current_signals := [], current_event_values := [-1],
    current_outputs := [], result := [], handler_log := [] }

/-- A scalar state with a handler-equipped zero-crossing event: the
handler doubles the state, so the final state reveals how many times it
was dispatched. -/
def c5st : StateVar :=
  { state_index := 0, shape := [1], derivative_function := .constE [0],
    initial_condition := [5] }

def c5event : EventSrc :=
  { event_index := 0, event_function := .add .timeE (.constE [-1]),
    direction := 0,
    update_function := some (.setState 0 (.scale 2 (.stateVal 0))) }

def c5sys : Sys :=
  { num_states := 1, num_signals := 0, num_events := 1, num_inputs := 0,
    num_outputs := 0, states := [c5st], signals := [], events := [c5event],
    outputs := [] }

def c5sim : Simulator :=
  { system := c5sys, start_time := 0, initial_condition := [5],
    integrator_constructor := fun _ _ _ _ =>
      { message := .ok none, t := 2, y := [5], dense_output := fun _ => [5] },
    rootfinder_constructor := fun _ _ _ => .ok 1,
    current_time := 0, current_state := [5], current_inputs := [],
    current_signals := [], current_event_values := [-1],
    current_outputs := [], result := [], handler_log := [] }

/-- A one-state, one-signal system: the signal is twice the state, the
derivative is constant. -/
def c7st : StateVar :=
  { state_index := 0, shape := [1], derivative_function := .constE [3],
    initial_condition := [1] }

def c7sig : Sig :=
  { signal_index := 0, shape := [1], value := .fnV (.scale 2 (.stateVal 0)),
    input_index := none }

def c7sys : Sys :=
  { num_states := 1, num_signals := 1, num_events := 0, num_inputs := 0,
    num_outputs := 0, states := [c7st], signals := [c7sig], events := [],
    outputs := [] }

def c8sys : Sys :=
  { num_states := 0, num_signals := 0, num_events := 0, num_inputs := 0,
    num_outputs := 0, states := [], signals := [], events := [],
    outputs := [] }

/-- A simulator whose pluggable integrator reports the failure message
`"stiffness"` from its `step()`. -/
def c8sim : Simulator :=
  { system := c8sys, start_time := 0, initial_condition := [],
    integrator_constructor := fun _ _ _ _ =>
      { message := .ok (some "stiffness"), t := 0, y := [],
        dense_output := fun _ => [] },
    rootfinder_constructor := fun _ _ _ => .ok 0,
    current_time := 0, current_state := [], current_inputs := [],
    current_signals := [], current_event_values := [], current_outputs := [],
    result := [], handler_log := [] }

/-- An InputSignal (whose value function would yield 99 if it were ever
invoked) and a second signal that reads it. -/
def c9sIn : Sig :=
  { signal_index := 0, shape := [1], value := .constV [99],
    input_index := some 0 }

def c9sB : Sig :=
  { signal_index := 1, shape := [1], value := .fnV (.portVal 0),
    input_index := none }

def c9sys : Sys :=
  { num_states := 0, num_signals := 2, num_events := 0, num_inputs := 1,
    num_outputs := 0, states := [], signals := [c9sIn, c9sB], events := [],
    outputs := [] }

/-- The evaluator obtained by constructing on `c9sys` with the input
vector `[7]`: the input slot is preloaded and marked valid. -/
def c9ev : Evaluator :=
  { Evaluator.init 0 c9sys none with sigV := [7, 0], validSignals := [0] }

/-- Invariant tying the instrumentation log to the evaluator state: no
signal is recorded twice, and every recorded signal is either already
validated or still under evaluation.  It holds for freshly constructed
evaluators (empty log) and is preserved by every operation; together with
monotonicity of the validity set it expresses that each value function
runs at most once per evaluator. -/
def LogInv (ev : Evaluator) : Prop :=
  ev.callLog.Nodup ∧
  ∀ x ∈ ev.callLog, x ∈ ev.validSignals ∨ x ∈ ev.evalSet

/-- How one signal-evaluation operation may transform an evaluator: the
time, system, state and the derivative / event stores are untouched; the
signal vector keeps its length; validity and evaluation sets only grow;
newly logged invocations concern only signals that were not yet valid;
the stored slices of already-valid signals are unchanged; and `LogInv`
is preserved. -/
structure EvStep (ev ev' : Evaluator) : Prop where
  sys_eq : ev'.system = ev.system
  time_eq : ev'.time = ev.time
  state_eq : ev'.state = ev.state
  deriv_eq : ev'.derivV = ev.derivV
  validD_eq : ev'.validDerivs = ev.validDerivs
  eventv_eq : ev'.eventV = ev.eventV
  validE_eq : ev'.validEvents = ev.validEvents
  sig_len : ev'.sigV.length = ev.sigV.length
  valid_mono : ∀ x ∈ ev.validSignals, x ∈ ev'.validSignals
  evalset_mono : ∀ x ∈ ev.evalSet, x ∈ ev'.evalSet
  log_new : ∀ x ∈ ev'.callLog, x ∈ ev.callLog ∨ x ∉ ev.validSignals
  slice_stable : ∀ s ∈ ev.system.signals, s.signal_index ∈ ev.validSignals →
    sliceRead ev'.sigV s.signal_index s.size = sliceRead ev.sigV s.signal_index s.size
  log_inv : LogInv ev → LogInv ev'

/-- Like `EvStep`, but for operations that may additionally compute and
store state derivatives and event values. -/
structure DStep (ev ev' : Evaluator) : Prop where
  sys_eq : ev'.system = ev.system
  time_eq : ev'.time = ev.time
  state_eq : ev'.state = ev.state
  deriv_len : ev'.derivV.length = ev.derivV.length
  validD_mono : ∀ x ∈ ev.validDerivs, x ∈ ev'.validDerivs
  eventv_len : ev'.eventV.length = ev.eventV.length
  validE_mono : ∀ x ∈ ev.validEvents, x ∈ ev'.validEvents
  sig_len : ev'.sigV.length = ev.sigV.length
  valid_mono : ∀ x ∈ ev.validSignals, x ∈ ev'.validSignals
  evalset_mono : ∀ x ∈ ev.evalSet, x ∈ ev'.evalSet
  log_new : ∀ x ∈ ev'.callLog, x ∈ ev.callLog ∨ x ∉ ev.validSignals
  slice_stable : ∀ s ∈ ev.system.signals, s.signal_index ∈ ev.validSignals →
    sliceRead ev'.sigV s.signal_index s.size = sliceRead ev.sigV s.signal_index s.size
  log_inv : LogInv ev → LogInv ev'

/-- The contract of the port-reading capability handed to
`evalExprWith`: it acts as an `EvStep` and, on success, restores the
evaluation set and stack. -/
def GpInv (gp : Evaluator → Nat → Except Err (List ℚ) × Evaluator) : Prop :=
  ∀ ev sid, Sys.WF ev.system → ev.sigV.length = ev.system.num_signals →
    EvStep ev (gp ev sid).2 ∧
    ∀ v ev', gp ev sid = (.ok v, ev') →
      ev'.evalSet = ev.evalSet ∧ ev'.evalStack = ev.evalStack

/-- `get_port_value` at positive fuel, written through `evalUserFn`. -/
theorem get_port_value_succ (fuel : Nat) (ev : Evaluator) (sig : Sig) :
    get_port_value (fuel + 1) ev sig =
      if sig.signal_index ∈ ev.validSignals then
        (npReshape (sliceRead ev.sigV sig.signal_index sig.size) sig.shape, ev)
      else if sig.signal_index ∈ ev.evalSet then
        (.error .algebraicLoop, ev)
      else
        let ev₁ := { ev with evalSet := setInsert sig.signal_index ev.evalSet,
                             evalStack := sig.signal_index :: ev.evalStack }
        let body :=
          match sig.value with
          | .fnV e =>
            evalUserFn fuel e { ev₁ with callLog := ev₁.callLog ++ [sig.signal_index] }
          | .constV v => (.ok v, ev₁)
        match body with
        | (.error er, ev₂) => (.error er, ev₂)
        | (.ok raw, ev₂) =>
          match npReshape raw sig.shape with
          | .error er => (.error er, ev₂)
          | .ok sv =>
            match npSliceAssign ev₂.sigV sig.signal_index sig.size sv with
            | .error er => (.error er, ev₂)
            | .ok sigV' =>
              (.ok sv,
               { ev₂ with sigV := sigV',
                          validSignals := setInsert sig.signal_index ev₂.validSignals,
                          evalSet := setErase sig.signal_index ev₂.evalSet,
                          evalStack := ev₂.evalStack.tail }) := rfl

theorem mem_setInsert {x y : Nat} {l : List Nat} :
    x ∈ setInsert y l ↔ x = y ∨ x ∈ l := by
  unfold setInsert
  split
  · constructor
    · exact fun h => Or.inr h
    · rintro (rfl | h)
      · assumption
      · assumption
  · simp

theorem mem_setErase {x y : Nat} {l : List Nat} :
    x ∈ setErase y l ↔ x ∈ l ∧ x ≠ y := by
  unfold setErase
  simp

theorem setInsert_not_mem {x : Nat} {l : List Nat} (h : x ∉ l) :
    setInsert x l = x :: l := by
  unfold setInsert
  simp [h]

theorem setErase_not_mem {x : Nat} {l : List Nat} (h : x ∉ l) :
    setErase x l = l := by
  unfold setErase
  exact List.filter_eq_self.mpr (fun a ha => by
    simp only [ne_eq, decide_eq_true_eq]
    exact fun hax => h (hax ▸ ha))

theorem setErase_insert_not_mem {x : Nat} {l : List Nat} (h : x ∉ l) :
    setErase x (setInsert x l) = l := by
  rw [setInsert_not_mem h]
  unfold setErase
  rw [List.filter_cons_of_neg (by simp)]
  exact setErase_not_mem h

theorem sliceRead_length (v : List ℚ) (start len : Nat) :
    (sliceRead v start len).length = min len (v.length - start) := by
  simp [sliceRead]

theorem sliceRead_in_bounds_length {v : List ℚ} {start len : Nat}
    (h : start + len ≤ v.length) :
    (sliceRead v start len).length = len := by
  rw [sliceRead_length]; omega

theorem npSliceAssign_exact {v w : List ℚ} {start len : Nat}
    (hb : start + len ≤ v.length) (hw : w.length = len) :
    npSliceAssign v start len w =
      .ok (v.take start ++ w ++ v.drop (start + len)) := by
  have heff : min len (v.length - start) = len := by omega
  unfold npSliceAssign
  rw [heff, if_pos hw]

theorem npSliceAssign_ok_length {v w v' : List ℚ} {start len : Nat}
    (h : npSliceAssign v start len w = .ok v') :
    v'.length = v.length := by
  simp only [npSliceAssign] at h
  by_cases h₁ : w.length = min len (v.length - start)
  · rw [if_pos h₁] at h
    cases h
    simp only [List.length_append, List.length_take, List.length_drop]
    omega
  · rw [if_neg h₁] at h
    by_cases h₂ : w.length = 1
    · rw [if_pos h₂] at h
      cases h
      simp only [List.length_append, List.length_take, List.length_replicate,
        List.length_drop]
      omega
    · rw [if_neg h₂] at h
      cases h

theorem sliceRead_assign_self {v w : List ℚ} {start len : Nat}
    (hb : start + len ≤ v.length) (hw : w.length = len) :
    sliceRead (v.take start ++ w ++ v.drop (start + len)) start len = w := by
  unfold sliceRead
  have h₁ : (v.take start).length = start := by
    rw [List.length_take]; omega
  rw [List.append_assoc, List.drop_left' h₁, List.take_left' hw]

theorem sliceRead_assign_disjoint {v w : List ℚ} {start len b m : Nat}
    (hb : start + len ≤ v.length) (hw : w.length = len)
    (hdisj : b + m ≤ start ∨ start + len ≤ b) :
    sliceRead (v.take start ++ w ++ v.drop (start + len)) b m =
      sliceRead v b m := by
  unfold sliceRead
  have h₁ : (v.take start).length = start := by
    rw [List.length_take]; omega
  rcases hdisj with h | h
  · rw [List.append_assoc, List.drop_append_eq_append_drop,
      List.take_append_eq_append_take]
    have h₂ : ((v.take start).drop b).length = start - b := by
      rw [List.length_drop, h₁]
    rw [h₂]
    have h₃ : m - (start - b) = 0 := by omega
    rw [h₃, List.take_zero, List.append_nil]
    rw [List.drop_take, List.take_take]
    congr 1
    omega
  · have h₂ : (v.take start ++ w).length = start + len := by
      simp only [List.length_append, h₁, hw]
    rw [List.drop_append_eq_append_drop, h₂,
      List.drop_eq_nil_of_le (show (v.take start ++ w).length ≤ b by
        rw [h₂]; omega),
      List.nil_append, List.drop_drop]
    have h₃ : start + len + (b - (start + len)) = b := by omega
    rw [h₃]

theorem EvStep.refl_ev {ev : Evaluator} : EvStep ev ev :=
  ⟨rfl, rfl, rfl, rfl, rfl, rfl, rfl, rfl, fun _ h => h, fun _ h => h,
   fun _ h => Or.inl h, fun _ _ _ => rfl, fun h => h⟩

theorem EvStep.trans_ev {ev₁ ev₂ ev₃ : Evaluator}
    (h₁ : EvStep ev₁ ev₂) (h₂ : EvStep ev₂ ev₃) : EvStep ev₁ ev₃ where
  sys_eq := h₂.sys_eq.trans h₁.sys_eq
  time_eq := h₂.time_eq.trans h₁.time_eq
  state_eq := h₂.state_eq.trans h₁.state_eq
  deriv_eq := h₂.deriv_eq.trans h₁.deriv_eq
  validD_eq := h₂.validD_eq.trans h₁.validD_eq
  eventv_eq := h₂.eventv_eq.trans h₁.eventv_eq
  validE_eq := h₂.validE_eq.trans h₁.validE_eq
  sig_len := h₂.sig_len.trans h₁.sig_len
  valid_mono := fun x hx => h₂.valid_mono x (h₁.valid_mono x hx)
  evalset_mono := fun x hx => h₂.evalset_mono x (h₁.evalset_mono x hx)
  log_new := by
    intro x hx
    rcases h₂.log_new x hx with h | h
    · exact h₁.log_new x h
    · exact Or.inr (fun hv => h (h₁.valid_mono x hv))
  slice_stable := by
    intro s hs hv
    have hs₂ : s ∈ ev₂.system.signals := by rw [h₁.sys_eq]; exact hs
    have hv₂ : s.signal_index ∈ ev₂.validSignals := h₁.valid_mono _ hv
    exact (h₂.slice_stable s hs₂ hv₂).trans (h₁.slice_stable s hs hv)
  log_inv := fun h => h₂.log_inv (h₁.log_inv h)

theorem EvStep.toDStep {ev ev' : Evaluator} (h : EvStep ev ev') :
    DStep ev ev' where
  sys_eq := h.sys_eq
  time_eq := h.time_eq
  state_eq := h.state_eq
  deriv_len := by rw [h.deriv_eq]
  validD_mono := fun x hx => h.validD_eq ▸ hx
  eventv_len := by rw [h.eventv_eq]
  validE_mono := fun x hx => h.validE_eq ▸ hx
  sig_len := h.sig_len
  valid_mono := h.valid_mono
  evalset_mono := h.evalset_mono
  log_new := h.log_new
  slice_stable := h.slice_stable
  log_inv := h.log_inv

theorem DStep.refl_dstep {ev : Evaluator} : DStep ev ev := EvStep.refl_ev.toDStep

theorem DStep.trans_dstep {ev₁ ev₂ ev₃ : Evaluator}
    (h₁ : DStep ev₁ ev₂) (h₂ : DStep ev₂ ev₃) : DStep ev₁ ev₃ where
  sys_eq := h₂.sys_eq.trans h₁.sys_eq
  time_eq := h₂.time_eq.trans h₁.time_eq
  state_eq := h₂.state_eq.trans h₁.state_eq
  deriv_len := h₂.deriv_len.trans h₁.deriv_len
  validD_mono := fun x hx => h₂.validD_mono x (h₁.validD_mono x hx)
  eventv_len := h₂.eventv_len.trans h₁.eventv_len
  validE_mono := fun x hx => h₂.validE_mono x (h₁.validE_mono x hx)
  sig_len := h₂.sig_len.trans h₁.sig_len
  valid_mono := fun x hx => h₂.valid_mono x (h₁.valid_mono x hx)
  evalset_mono := fun x hx => h₂.evalset_mono x (h₁.evalset_mono x hx)
  log_new := by
    intro x hx
    rcases h₂.log_new x hx with h | h
    · exact h₁.log_new x h
    · exact Or.inr (fun hv => h (h₁.valid_mono x hv))
  slice_stable := by
    intro s hs hv
    have hs₂ : s ∈ ev₂.system.signals := by rw [h₁.sys_eq]; exact hs
    have hv₂ : s.signal_index ∈ ev₂.validSignals := h₁.valid_mono _ hv
    exact (h₂.slice_stable s hs₂ hv₂).trans (h₁.slice_stable s hs hv)
  log_inv := fun h => h₂.log_inv (h₁.log_inv h)

theorem npReshape_ok {v w : List ℚ} {shape : List Nat}
    (h : npReshape v shape = .ok w) : w = v ∧ v.length = shape.prod := by
  unfold npReshape at h
  split at h
  · cases h
    exact ⟨rfl, by assumption⟩
  · cases h

theorem npReshape_of_length {v : List ℚ} {shape : List Nat}
    (h : v.length = shape.prod) : npReshape v shape = .ok v := by
  unfold npReshape
  rw [if_pos h]

theorem Sys.WF.signal_bound {sys : Sys} (h : Sys.WF sys) {s : Sig}
    (hs : s ∈ sys.signals) : s.signal_index + s.size ≤ sys.num_signals :=
  (h.1 s hs).1

theorem Sys.WF.signal_disjoint {sys : Sys} (h : Sys.WF sys) {s t : Sig}
    (hs : s ∈ sys.signals) (ht : t ∈ sys.signals)
    (hne : s.signal_index ≠ t.signal_index) :
    s.signal_index + s.size ≤ t.signal_index ∨
      t.signal_index + t.size ≤ s.signal_index := by
  have hsym : Symmetric (fun a b : Sig =>
      a.signal_index + a.size ≤ b.signal_index ∨
      b.signal_index + b.size ≤ a.signal_index) :=
    fun a b hab => hab.symm
  exact h.2.1.forall hsym hs ht (fun he => hne (by rw [he]))

theorem findSignal_mem {sys : Sys} {sid : Nat} {s : Sig}
    (h : sys.findSignal sid = some s) : s ∈ sys.signals :=
  List.mem_of_find?_eq_some h

theorem evalExprWith_master {gp : Evaluator → Nat → Except Err (List ℚ) × Evaluator}
    (hgp : GpInv gp) :
    ∀ (e : Expr) (ev : Evaluator), Sys.WF ev.system →
      ev.sigV.length = ev.system.num_signals →
      EvStep ev (evalExprWith gp e ev).2 ∧
      ∀ v ev', evalExprWith gp e ev = (.ok v, ev') →
        ev'.evalSet = ev.evalSet ∧ ev'.evalStack = ev.evalStack := by
  intro e
  induction e with
  | constE v0 =>
    intro ev hwf hlen
    refine ⟨EvStep.refl_ev, ?_⟩
    intro v ev' h
    injection h with h₁ h₂
    rw [← h₂]
    exact ⟨rfl, rfl⟩
  | timeE =>
    intro ev hwf hlen
    refine ⟨EvStep.refl_ev, ?_⟩
    intro v ev' h
    injection h with h₁ h₂
    rw [← h₂]
    exact ⟨rfl, rfl⟩
  | stateVal sid =>
    intro ev hwf hlen
    constructor
    · show EvStep ev (evalExprWith gp (.stateVal sid) ev).2
      simp only [evalExprWith]
      cases ev.system.findState sid <;> exact EvStep.refl_ev
    · intro v ev' h
      simp only [evalExprWith] at h
      cases hfind : ev.system.findState sid with
      | none =>
        rw [hfind] at h
        cases h
      | some st =>
        rw [hfind] at h
        injection h with h₁ h₂
        rw [← h₂]
        exact ⟨rfl, rfl⟩
  | portVal sid =>
    intro ev hwf hlen
    exact hgp ev sid hwf hlen
  | scale c e ih =>
    intro ev hwf hlen
    obtain ⟨hstep, hok⟩ := ih ev hwf hlen
    rcases hsub : evalExprWith gp e ev with ⟨res, ev₁⟩
    rw [hsub] at hstep hok
    constructor
    · show EvStep ev (evalExprWith gp (.scale c e) ev).2
      simp only [evalExprWith, hsub]
      cases res <;> exact hstep
    · intro v ev' h
      simp only [evalExprWith, hsub] at h
      cases res with
      | error er => cases h
      | ok w =>
        injection h with h₁ h₂
        rw [← h₂]
        exact hok w ev₁ rfl
  | add e₁ e₂ ih₁ ih₂ =>
    intro ev hwf hlen
    obtain ⟨hstep₁, hok₁⟩ := ih₁ ev hwf hlen
    rcases hsub₁ : evalExprWith gp e₁ ev with ⟨res₁, ev₁⟩
    rw [hsub₁] at hstep₁ hok₁
    cases res₁ with
    | error er =>
      constructor
      · show EvStep ev (evalExprWith gp (.add e₁ e₂) ev).2
        simp only [evalExprWith, hsub₁]
        exact hstep₁
      · intro v ev' h
        simp only [evalExprWith, hsub₁] at h
        cases h
    | ok w₁ =>
      have hwf₁ : Sys.WF ev₁.system := by rw [hstep₁.sys_eq]; exact hwf
      have hlen₁ : ev₁.sigV.length = ev₁.system.num_signals := by
        rw [hstep₁.sig_len, hstep₁.sys_eq]; exact hlen
      obtain ⟨hstep₂, hok₂⟩ := ih₂ ev₁ hwf₁ hlen₁
      rcases hsub₂ : evalExprWith gp e₂ ev₁ with ⟨res₂, ev₂⟩
      rw [hsub₂] at hstep₂ hok₂
      cases res₂ with
      | error er =>
        constructor
        · show EvStep ev (evalExprWith gp (.add e₁ e₂) ev).2
          simp only [evalExprWith, hsub₁, hsub₂]
          exact hstep₁.trans_ev hstep₂
        · intro v ev' h
          simp only [evalExprWith, hsub₁, hsub₂] at h
          cases h
      | ok w₂ =>
        constructor
        · show EvStep ev (evalExprWith gp (.add e₁ e₂) ev).2
          simp only [evalExprWith, hsub₁, hsub₂]
          exact hstep₁.trans_ev hstep₂
        · intro v ev' h
          simp only [evalExprWith, hsub₁, hsub₂] at h
          cases hadd : npAdd w₁ w₂ with
          | error er => rw [hadd] at h; cases h
          | ok w =>
            rw [hadd] at h
            injection h with h₁ h₂
            rw [← h₂]
            obtain ⟨ha₁, hb₁⟩ := hok₁ w₁ ev₁ rfl
            obtain ⟨ha₂, hb₂⟩ := hok₂ w₂ ev₂ rfl
            exact ⟨ha₂.trans ha₁, hb₂.trans hb₁⟩

theorem get_port_value_master :
    ∀ (fuel : Nat) (ev : Evaluator) (sig : Sig), Sys.WF ev.system →
      sig ∈ ev.system.signals → ev.sigV.length = ev.system.num_signals →
      EvStep ev (get_port_value fuel ev sig).2 ∧
      ∀ v ev', get_port_value fuel ev sig = (.ok v, ev') →
        sig.signal_index ∈ ev'.validSignals ∧ v.length = sig.size ∧
        sliceRead ev'.sigV sig.signal_index sig.size = v ∧
        ev'.evalSet = ev.evalSet ∧ ev'.evalStack = ev.evalStack := by
  intro fuel
  induction fuel with
  | zero =>
    intro ev sig _ _ _
    exact ⟨EvStep.refl_ev, fun v ev' h => by cases h⟩
  | succ fuel ih =>
    intro ev sig hwf hmem hlen
    have hgp : GpInv (fun e' sid =>
        match e'.system.findSignal sid with
        | none => (.error .badRef, e')
        | some s => get_port_value fuel e' s) := by
      intro ev₀ sid hwf₀ hlen₀
      cases hfind : ev₀.system.findSignal sid with
      | none =>
        simp only [hfind]
        exact ⟨EvStep.refl_ev, fun v ev' h => by cases h⟩
      | some s =>
        simp only [hfind]
        obtain ⟨h₁, h₂⟩ := ih ev₀ s hwf₀ (findSignal_mem hfind) hlen₀
        exact ⟨h₁, fun v ev' h => (h₂ v ev' h).2.2.2⟩
    by_cases hv : sig.signal_index ∈ ev.validSignals
    · rw [get_port_value_succ]
      simp only [if_pos hv]
      refine ⟨EvStep.refl_ev, ?_⟩
      intro v ev' h
      injection h with h₁ h₂
      obtain ⟨hveq, hvlen⟩ := npReshape_ok h₁
      rw [← h₂]
      exact ⟨hv, by rw [hveq]; exact hvlen, hveq.symm, rfl, rfl⟩
    · by_cases hes : sig.signal_index ∈ ev.evalSet
      · rw [get_port_value_succ]
        simp only [if_neg hv, if_pos hes]
        exact ⟨EvStep.refl_ev, fun v ev' h => by cases h⟩
      · -- the compute branch
        have hbound : sig.signal_index + sig.size ≤ ev.sigV.length := by
          rw [hlen]; exact hwf.signal_bound hmem
        -- step from ev into the evaluator on which the body runs
        cases hval : sig.value with
        | constV v0 =>
          rw [get_port_value_succ]
          simp only [if_neg hv, if_neg hes, hval]
          set ev₂ : Evaluator :=
            { ev with evalSet := setInsert sig.signal_index ev.evalSet,
                      evalStack := sig.signal_index :: ev.evalStack } with hev₂
          have hpre : EvStep ev ev₂ :=
            { sys_eq := rfl, time_eq := rfl, state_eq := rfl, deriv_eq := rfl
              validD_eq := rfl, eventv_eq := rfl, validE_eq := rfl
              sig_len := rfl
              valid_mono := fun x hx => hx
              evalset_mono := fun x hx => mem_setInsert.mpr (Or.inr hx)
              log_new := fun x hx => Or.inl hx
              slice_stable := fun _ _ _ => rfl
              log_inv := fun hli =>
                ⟨hli.1, fun x hx => (hli.2 x hx).imp id
                  (fun hxs => mem_setInsert.mpr (Or.inr hxs))⟩ }
          have hsets₂ : ev₂.evalSet = setInsert sig.signal_index ev.evalSet ∧
              ev₂.evalStack = sig.signal_index :: ev.evalStack := ⟨rfl, rfl⟩
          -- continue with the common tail
          cases hrs : npReshape v0 sig.shape with
          | error er =>
            simp only [hrs]
            exact ⟨hpre, fun v ev' h => by cases h⟩
          | ok sv =>
            obtain ⟨hsveq, hsvlen⟩ := npReshape_ok hrs
            have hsvlen' : sv.length = sig.size := by
              rw [hsveq]; exact hsvlen
            have hassign := @npSliceAssign_exact ev₂.sigV sv
              sig.signal_index sig.size (by exact hbound) hsvlen'
            simp only [hrs, hassign]
            refine ⟨?_, ?_⟩
            · -- EvStep into the final evaluator
              refine
                { sys_eq := rfl, time_eq := rfl, state_eq := rfl
                  deriv_eq := rfl, validD_eq := rfl, eventv_eq := rfl
                  validE_eq := rfl
                  sig_len := ?_, valid_mono := ?_, evalset_mono := ?_
                  log_new := ?_, slice_stable := ?_, log_inv := ?_ }
              · simp only [List.length_append, List.length_take,
                  List.length_drop]
                omega
              · exact fun x hx => mem_setInsert.mpr (Or.inr hx)
              · intro x hx
                exact mem_setErase.mpr ⟨mem_setInsert.mpr (Or.inr hx),
                  fun hxe => hes (hxe ▸ hx)⟩
              · exact fun x hx => Or.inl hx
              · intro s hs hvs
                have hne : s.signal_index ≠ sig.signal_index :=
                  fun he => hv (he ▸ hvs)
                exact sliceRead_assign_disjoint hbound hsvlen'
                  (hwf.signal_disjoint hs hmem hne)
              · intro hli
                refine ⟨hli.1, ?_⟩
                intro x hx
                rcases hli.2 x hx with hxv | hxs
                · exact Or.inl (mem_setInsert.mpr (Or.inr hxv))
                · by_cases hxe : x = sig.signal_index
                  · exact Or.inl (mem_setInsert.mpr (Or.inl hxe))
                  · exact Or.inr (mem_setErase.mpr
                      ⟨mem_setInsert.mpr (Or.inr hxs), hxe⟩)
            · intro v ev' h
              injection h with h₁ h₂
              injection h₁ with h₁
              rw [← h₂, ← h₁]
              refine ⟨mem_setInsert.mpr (Or.inl rfl), hsvlen', ?_, ?_, ?_⟩
              · exact sliceRead_assign_self hbound hsvlen'
              · show setErase sig.signal_index
                  (setInsert sig.signal_index ev.evalSet) = ev.evalSet
                exact setErase_insert_not_mem hes
              · rfl
        | fnV e0 =>
          rw [get_port_value_succ]
          simp only [if_neg hv, if_neg hes, hval]
          set evb : Evaluator :=
            { ev with evalSet := setInsert sig.signal_index ev.evalSet,
                      evalStack := sig.signal_index :: ev.evalStack,
                      callLog := ev.callLog ++ [sig.signal_index] } with hevb
          have hpre : EvStep ev evb :=
            { sys_eq := rfl, time_eq := rfl, state_eq := rfl, deriv_eq := rfl
              validD_eq := rfl, eventv_eq := rfl, validE_eq := rfl
              sig_len := rfl
              valid_mono := fun x hx => hx
              evalset_mono := fun x hx => mem_setInsert.mpr (Or.inr hx)
              log_new := by
                intro x hx
                rcases List.mem_append.mp hx with hx | hx
                · exact Or.inl hx
                · rw [List.mem_singleton.mp hx]
                  exact Or.inr hv
              slice_stable := fun _ _ _ => rfl
              log_inv := by
                intro hli
                constructor
                · refine List.nodup_append.mpr
                    ⟨hli.1, List.nodup_singleton _, ?_⟩
                  intro x hx hx'
                  rw [List.mem_singleton.mp hx'] at hx
                  rcases hli.2 _ hx with hxx | hxx
                  · exact hv hxx
                  · exact hes hxx
                · intro x hx
                  rcases List.mem_append.mp hx with hx | hx
                  · exact (hli.2 x hx).imp id
                      (fun hxs => mem_setInsert.mpr (Or.inr hxs))
                  · rw [List.mem_singleton.mp hx]
                    exact Or.inr (mem_setInsert.mpr (Or.inl rfl))}
          have hwfb : Sys.WF evb.system := hwf
          have hlenb : evb.sigV.length = evb.system.num_signals := hlen
          obtain ⟨hbstep, hbok⟩ := evalExprWith_master hgp e0 evb hwfb hlenb
          rcases hbeq : evalExprWith (fun e' sid =>
              match e'.system.findSignal sid with
              | none => (.error .badRef, e')
              | some s => get_port_value fuel e' s) e0 evb with ⟨bres, ev₂⟩
          have hbeq' : evalUserFn fuel e0 evb = (bres, ev₂) := hbeq
          rw [hbeq] at hbstep hbok
          have hcomp : EvStep ev ev₂ := hpre.trans_ev hbstep
          simp only [hbeq']
          cases bres with
          | error er =>
            exact ⟨hcomp, fun v ev' h => by cases h⟩
          | ok raw =>
            obtain ⟨hset₂, hstack₂⟩ := hbok raw ev₂ rfl
            cases hrs : npReshape raw sig.shape with
            | error er =>
              simp only [hrs]
              exact ⟨hcomp, fun v ev' h => by cases h⟩
            | ok sv =>
              obtain ⟨hsveq, hsvlen⟩ := npReshape_ok hrs
              have hsvlen' : sv.length = sig.size := by
                rw [hsveq]; exact hsvlen
              have hbound₂ : sig.signal_index + sig.size ≤ ev₂.sigV.length := by
                rw [hcomp.sig_len]; exact hbound
              have hassign := @npSliceAssign_exact ev₂.sigV sv
                sig.signal_index sig.size hbound₂ hsvlen'
              simp only [hrs, hassign]
              refine ⟨?_, ?_⟩
              · refine
                  { sys_eq := hcomp.sys_eq, time_eq := hcomp.time_eq
                    state_eq := hcomp.state_eq, deriv_eq := hcomp.deriv_eq
                    validD_eq := hcomp.validD_eq, eventv_eq := hcomp.eventv_eq
                    validE_eq := hcomp.validE_eq
                    sig_len := ?_, valid_mono := ?_, evalset_mono := ?_
                    log_new := ?_, slice_stable := ?_, log_inv := ?_ }
                · show (ev₂.sigV.take sig.signal_index ++ sv ++
                      ev₂.sigV.drop (sig.signal_index + sig.size)).length =
                      ev.sigV.length
                  simp only [List.length_append, List.length_take,
                    List.length_drop]
                  rw [hsvlen']
                  have := hcomp.sig_len
                  omega
                · exact fun x hx => mem_setInsert.mpr
                    (Or.inr (hcomp.valid_mono x hx))
                · intro x hx
                  exact mem_setErase.mpr ⟨hcomp.evalset_mono x hx,
                    fun hxe => hes (hxe ▸ hx)⟩
                · exact hcomp.log_new
                · intro s hs hvs
                  have hne : s.signal_index ≠ sig.signal_index :=
                    fun he => hv (he ▸ hvs)
                  have hstable := hcomp.slice_stable s hs hvs
                  have hdis := sliceRead_assign_disjoint hbound₂ hsvlen'
                    (hwf.signal_disjoint hs hmem hne)
                  exact hdis.trans hstable
                · intro hli
                  have hli₂ := hcomp.log_inv hli
                  refine ⟨hli₂.1, ?_⟩
                  intro x hx
                  rcases hli₂.2 x hx with hxv | hxs
                  · exact Or.inl (mem_setInsert.mpr (Or.inr hxv))
                  · by_cases hxe : x = sig.signal_index
                    · exact Or.inl (mem_setInsert.mpr (Or.inl hxe))
                    · exact Or.inr (mem_setErase.mpr ⟨hxs, hxe⟩)
              · intro v ev' h
                injection h with h₁ h₂
                injection h₁ with h₁
                rw [← h₂, ← h₁]
                refine ⟨mem_setInsert.mpr (Or.inl rfl), hsvlen', ?_, ?_, ?_⟩
                · exact sliceRead_assign_self hbound₂ hsvlen'
                · show setErase sig.signal_index ev₂.evalSet = ev.evalSet
                  rw [hset₂]
                  show setErase sig.signal_index
                    (setInsert sig.signal_index ev.evalSet) = ev.evalSet
                  exact setErase_insert_not_mem hes
                · show ev₂.evalStack.tail = ev.evalStack
                  rw [hstack₂]
                  rfl

theorem gp_inv (fuel : Nat) : GpInv (fun e' sid =>
    match e'.system.findSignal sid with
    | none => (.error .badRef, e')
    | some s => get_port_value fuel e' s) := by
  intro ev₀ sid hwf₀ hlen₀
  cases hfind : ev₀.system.findSignal sid with
  | none =>
    simp only [hfind]
    exact ⟨EvStep.refl_ev, fun v ev' h => by cases h⟩
  | some s =>
    simp only [hfind]
    obtain ⟨h₁, h₂⟩ := get_port_value_master fuel ev₀ s hwf₀
      (findSignal_mem hfind) hlen₀
    exact ⟨h₁, fun v ev' h => (h₂ v ev' h).2.2.2⟩

theorem evalUserFn_master (fuel : Nat) (e : Expr) (ev : Evaluator)
    (hwf : Sys.WF ev.system) (hlen : ev.sigV.length = ev.system.num_signals) :
    EvStep ev (evalUserFn fuel e ev).2 ∧
    ∀ v ev', evalUserFn fuel e ev = (.ok v, ev') →
      ev'.evalSet = ev.evalSet ∧ ev'.evalStack = ev.evalStack :=
  evalExprWith_master (gp_inv fuel) e ev hwf hlen

theorem get_state_derivative_master (fuel : Nat) (ev : Evaluator)
    (st : StateVar) (hwf : Sys.WF ev.system)
    (hlen : ev.sigV.length = ev.system.num_signals) :
    DStep ev (get_state_derivative fuel ev st).2 ∧
    ∀ v ev', get_state_derivative fuel ev st = (.ok v, ev') →
      st.state_index ∈ ev'.validDerivs := by
  unfold get_state_derivative
  by_cases hv : st.state_index ∈ ev.validDerivs
  · simp only [if_pos hv]
    refine ⟨DStep.refl_dstep, ?_⟩
    intro v ev' h
    injection h with h₁ h₂
    rw [← h₂]
    exact hv
  · simp only [if_neg hv]
    obtain ⟨hustep, _⟩ := evalUserFn_master fuel st.derivative_function ev hwf hlen
    rcases hueq : evalUserFn fuel st.derivative_function ev with ⟨ures, ev₁⟩
    rw [hueq] at hustep
    cases ures with
    | error er => exact ⟨hustep.toDStep, fun v ev' h => by cases h⟩
    | ok raw =>
      cases hrs : npReshape raw st.shape with
      | error er =>
        simp only [hrs]
        exact ⟨hustep.toDStep, fun v ev' h => by cases h⟩
      | ok sv =>
        simp only [hrs]
        cases hassign : npSliceAssign ev₁.derivV st.state_index st.size sv with
        | error er =>
          simp only [hassign]
          exact ⟨hustep.toDStep, fun v ev' h => by cases h⟩
        | ok derivV' =>
          simp only [hassign]
          have hd := hustep.toDStep
          refine ⟨?_, ?_⟩
          · exact
              { sys_eq := hd.sys_eq, time_eq := hd.time_eq
                state_eq := hd.state_eq
                deriv_len := by
                  have := npSliceAssign_ok_length hassign
                  rw [this, hd.deriv_len]
                validD_mono := fun x hx => mem_setInsert.mpr
                  (Or.inr (hd.validD_mono x hx))
                eventv_len := hd.eventv_len
                validE_mono := hd.validE_mono
                sig_len := hd.sig_len
                valid_mono := hd.valid_mono
                evalset_mono := hd.evalset_mono
                log_new := hd.log_new
                slice_stable := hd.slice_stable
                log_inv := hd.log_inv }
          · intro v ev' h
            injection h with h₁ h₂
            rw [← h₂]
            exact mem_setInsert.mpr (Or.inl rfl)

theorem signals_fold_master (fuel : Nat) :
    ∀ (L : List Sig) (ev : Evaluator), Sys.WF ev.system →
      (∀ s ∈ L, s ∈ ev.system.signals) →
      ev.sigV.length = ev.system.num_signals →
      EvStep ev (signals_fold fuel ev L).2 ∧
      ∀ ev', signals_fold fuel ev L = (.ok (), ev') →
        ∀ s ∈ L, s.signal_index ∈ ev'.validSignals := by
  intro L
  induction L with
  | nil =>
    intro ev _ _ _
    exact ⟨EvStep.refl_ev, fun ev' h => by
      injection h with h₁ h₂
      intro s hs
      cases hs⟩
  | cons s₀ L ih =>
    intro ev hwf hsub hlen
    obtain ⟨hstep₀, hok₀⟩ := get_port_value_master fuel ev s₀ hwf
      (hsub s₀ (List.mem_cons_self s₀ L)) hlen
    rcases heq₀ : get_port_value fuel ev s₀ with ⟨res₀, ev₁⟩
    rw [heq₀] at hstep₀ hok₀
    cases res₀ with
    | error er =>
      constructor
      · show EvStep ev (signals_fold fuel ev (s₀ :: L)).2
        simp only [signals_fold, heq₀]
        exact hstep₀
      · intro ev' h
        simp only [signals_fold, heq₀] at h
        cases h
    | ok w =>
      have hwf₁ : Sys.WF ev₁.system := by rw [hstep₀.sys_eq]; exact hwf
      have hsub₁ : ∀ s ∈ L, s ∈ ev₁.system.signals := by
        intro s hs
        rw [hstep₀.sys_eq]
        exact hsub s (List.mem_cons_of_mem _ hs)
      have hlen₁ : ev₁.sigV.length = ev₁.system.num_signals := by
        rw [hstep₀.sig_len, hstep₀.sys_eq]; exact hlen
      obtain ⟨hstepL, hokL⟩ := ih ev₁ hwf₁ hsub₁ hlen₁
      constructor
      · show EvStep ev (signals_fold fuel ev (s₀ :: L)).2
        simp only [signals_fold, heq₀]
        exact hstep₀.trans_ev hstepL
      · intro ev' h
        simp only [signals_fold, heq₀] at h
        intro s hs
        rcases List.mem_cons.mp hs with rfl | hs
        · have hv₁ : s.signal_index ∈ ev₁.validSignals :=
            (hok₀ w ev₁ rfl).1
          rcases hfold : signals_fold fuel ev₁ L with ⟨resL, evL⟩
          rw [hfold] at h hstepL
          cases resL with
          | error er => cases h
          | ok u =>
            injection h with h₁ h₂
            rw [← h₂]
            exact hstepL.valid_mono _ hv₁
        · exact hokL ev' h s hs

theorem derivs_fold_master (fuel : Nat) :
    ∀ (L : List StateVar) (ev : Evaluator), Sys.WF ev.system →
      ev.sigV.length = ev.system.num_signals →
      DStep ev (derivs_fold fuel ev L).2 ∧
      ∀ ev', derivs_fold fuel ev L = (.ok (), ev') →
        ∀ s ∈ L, s.state_index ∈ ev'.validDerivs := by
  intro L
  induction L with
  | nil =>
    intro ev _ _
    exact ⟨DStep.refl_dstep, fun ev' h => by
      injection h with h₁ h₂
      intro s hs
      cases hs⟩
  | cons s₀ L ih =>
    intro ev hwf hlen
    obtain ⟨hstep₀, hok₀⟩ := get_state_derivative_master fuel ev s₀ hwf hlen
    rcases heq₀ : get_state_derivative fuel ev s₀ with ⟨res₀, ev₁⟩
    rw [heq₀] at hstep₀ hok₀
    cases res₀ with
    | error er =>
      constructor
      · show DStep ev (derivs_fold fuel ev (s₀ :: L)).2
        simp only [derivs_fold, heq₀]
        exact hstep₀
      · intro ev' h
        simp only [derivs_fold, heq₀] at h
        cases h
    | ok w =>
      have hwf₁ : Sys.WF ev₁.system := by rw [hstep₀.sys_eq]; exact hwf
      have hlen₁ : ev₁.sigV.length = ev₁.system.num_signals := by
        rw [hstep₀.sig_len, hstep₀.sys_eq]; exact hlen
      obtain ⟨hstepL, hokL⟩ := ih ev₁ hwf₁ hlen₁
      constructor
      · show DStep ev (derivs_fold fuel ev (s₀ :: L)).2
        simp only [derivs_fold, heq₀]
        exact hstep₀.trans_dstep hstepL
      · intro ev' h
        simp only [derivs_fold, heq₀] at h
        intro s hs
        rcases List.mem_cons.mp hs with rfl | hs
        · have hv₁ : s.state_index ∈ ev₁.validDerivs := hok₀ w ev₁ rfl
          rcases hfold : derivs_fold fuel ev₁ L with ⟨resL, evL⟩
          rw [hfold] at h hstepL
          cases resL with
          | error er => cases h
          | ok u =>
            injection h with h₁ h₂
            rw [← h₂]
            exact hstepL.validD_mono _ hv₁
        · exact hokL ev' h s hs

theorem get_port_value_memo {fuel : Nat} {ev : Evaluator} {sig : Sig}
    (hv : sig.signal_index ∈ ev.validSignals)
    (hb : sig.signal_index + sig.size ≤ ev.sigV.length) :
    get_port_value (fuel + 1) ev sig =
      (.ok (sliceRead ev.sigV sig.signal_index sig.size), ev) := by
  rw [get_port_value_succ]
  simp only [if_pos hv]
  rw [npReshape_of_length (by rw [sliceRead_in_bounds_length hb]; rfl)]

theorem get_state_derivative_memo {fuel : Nat} {ev : Evaluator}
    {st : StateVar} (hv : st.state_index ∈ ev.validDerivs)
    (hb : st.state_index + st.size ≤ ev.derivV.length) :
    get_state_derivative fuel ev st =
      (.ok (sliceRead ev.derivV st.state_index st.size), ev) := by
  unfold get_state_derivative
  simp only [if_pos hv]
  rw [npReshape_of_length (by rw [sliceRead_in_bounds_length hb]; rfl)]

theorem signals_fold_all_valid {fuel : Nat} {ev : Evaluator} :
    ∀ {L : List Sig}, (∀ s ∈ L, s.signal_index ∈ ev.validSignals) →
      (∀ s ∈ L, s.signal_index + s.size ≤ ev.sigV.length) →
      signals_fold (fuel + 1) ev L = (.ok (), ev) := by
  intro L
  induction L with
  | nil => intro _ _; rfl
  | cons s₀ L ih =>
    intro hval hb
    have h₀ := @get_port_value_memo fuel ev s₀
      (hval s₀ (List.mem_cons_self s₀ L)) (hb s₀ (List.mem_cons_self s₀ L))
    simp only [signals_fold, h₀]
    exact ih (fun s hs => hval s (List.mem_cons_of_mem _ hs))
      (fun s hs => hb s (List.mem_cons_of_mem _ hs))

theorem derivs_fold_all_valid {fuel : Nat} {ev : Evaluator} :
    ∀ {L : List StateVar}, (∀ s ∈ L, s.state_index ∈ ev.validDerivs) →
      (∀ s ∈ L, s.state_index + s.size ≤ ev.derivV.length) →
      derivs_fold fuel ev L = (.ok (), ev) := by
  intro L
  induction L with
  | nil => intro _ _; rfl
  | cons s₀ L ih =>
    intro hval hb
    have h₀ := @get_state_derivative_memo fuel ev s₀
      (hval s₀ (List.mem_cons_self s₀ L)) (hb s₀ (List.mem_cons_self s₀ L))
    simp only [derivs_fold, h₀]
    exact ih (fun s hs => hval s (List.mem_cons_of_mem _ hs))
      (fun s hs => hb s (List.mem_cons_of_mem _ hs))

theorem signals_fold_zero_ok {ev ev' : Evaluator} {L : List Sig}
    (h : signals_fold 0 ev L = (.ok (), ev')) : L = [] ∧ ev' = ev := by
  cases L with
  | nil =>
    injection h with h₁ h₂
    exact ⟨rfl, h₂.symm⟩
  | cons s₀ L =>
    simp only [signals_fold, get_port_value] at h
    cases h

theorem preloadFold_master (u : List ℚ) :
    ∀ (L : List Sig) (ev : Evaluator), Sys.WF ev.system →
      (∀ s ∈ L, s ∈ ev.system.signals) →
      (∀ s ∈ L, s.input_index.isSome) →
      L.Pairwise (fun a b =>
        a.signal_index + a.size ≤ b.signal_index ∨
        b.signal_index + b.size ≤ a.signal_index) →
      ev.sigV.length = ev.system.num_signals →
      u.length = ev.system.num_inputs →
      ∃ ev', preloadFold u ev L = .ok ev' ∧
        ev'.system = ev.system ∧ ev'.time = ev.time ∧ ev'.state = ev.state ∧
        ev'.derivV = ev.derivV ∧ ev'.validDerivs = ev.validDerivs ∧
        ev'.eventV = ev.eventV ∧ ev'.validEvents = ev.validEvents ∧
        ev'.evalSet = ev.evalSet ∧ ev'.evalStack = ev.evalStack ∧
        ev'.callLog = ev.callLog ∧
        ev'.sigV.length = ev.sigV.length ∧
        (∀ x ∈ ev.validSignals, x ∈ ev'.validSignals) ∧
        (∀ s ∈ L, s.signal_index ∈ ev'.validSignals ∧
          sliceRead ev'.sigV s.signal_index s.size =
            sliceRead u (s.input_index.getD 0) s.size) ∧
        (∀ b m : Nat, (∀ s ∈ L, s.signal_index + s.size ≤ b ∨
            b + m ≤ s.signal_index) →
          sliceRead ev'.sigV b m = sliceRead ev.sigV b m) := by
  intro L
  induction L with
  | nil =>
    intro ev _ _ _ _ _ _
    exact ⟨ev, rfl, rfl, rfl, rfl, rfl, rfl, rfl, rfl, rfl, rfl, rfl, rfl,
      fun x hx => hx, fun s hs => ((List.not_mem_nil s) hs).elim,
      fun b m _ => rfl⟩
  | cons s₀ L ih =>
    intro ev hwf hsub hsome hpair hlen hu
    have hmem₀ : s₀ ∈ ev.system.signals := hsub s₀ (List.mem_cons_self s₀ L)
    obtain ⟨i₀, hi₀⟩ := Option.isSome_iff_exists.mp
      (hsome s₀ (List.mem_cons_self s₀ L))
    have hib : i₀ + s₀.size ≤ ev.system.num_inputs :=
      (hwf.1 s₀ hmem₀).2.2 i₀ hi₀
    have hwlen : (sliceRead u (s₀.input_index.getD 0) s₀.size).length =
        s₀.size := by
      rw [hi₀]
      exact sliceRead_in_bounds_length (by rw [hu]; simpa using hib)
    have hb₀ : s₀.signal_index + s₀.size ≤ ev.sigV.length := by
      rw [hlen]; exact hwf.signal_bound hmem₀
    have hassign := @npSliceAssign_exact ev.sigV
      (sliceRead u (s₀.input_index.getD 0) s₀.size)
      s₀.signal_index s₀.size hb₀ hwlen
    set w := sliceRead u (s₀.input_index.getD 0) s₀.size with hw
    set sv := ev.sigV.take s₀.signal_index ++ w ++
      ev.sigV.drop (s₀.signal_index + s₀.size) with hsv
    set ev₁ : Evaluator :=
      { ev with sigV := sv,
                validSignals := setInsert s₀.signal_index ev.validSignals }
      with hev₁
    have hlen₁ : ev₁.sigV.length = ev.sigV.length := by
      show sv.length = ev.sigV.length
      rw [hsv]
      simp only [List.length_append, List.length_take, List.length_drop]
      omega
    have hpairL : L.Pairwise (fun a b =>
        a.signal_index + a.size ≤ b.signal_index ∨
        b.signal_index + b.size ≤ a.signal_index) :=
      (List.pairwise_cons.mp hpair).2
    have hheadL : ∀ s ∈ L, s₀.signal_index + s₀.size ≤ s.signal_index ∨
        s.signal_index + s.size ≤ s₀.signal_index :=
      (List.pairwise_cons.mp hpair).1
    obtain ⟨ev', hfold, hsys, htime, hstate, hderiv, hvd, hevv, hve, hset,
      hstack, hlog, hlen', hvmono, hL, hstable⟩ :=
      ih ev₁ hwf (fun s hs => hsub s (List.mem_cons_of_mem _ hs))
        (fun s hs => hsome s (List.mem_cons_of_mem _ hs)) hpairL
        (by rw [hlen₁]; exact hlen) hu
    refine ⟨ev', ?_, hsys, htime, hstate, hderiv, hvd, hevv, hve, hset,
      hstack, hlog, by rw [hlen', hlen₁], ?_, ?_, ?_⟩
    · show preloadFold u ev (s₀ :: L) = .ok ev'
      simp only [preloadFold, hassign]
      exact hfold
    · intro x hx
      exact hvmono x (mem_setInsert.mpr (Or.inr hx))
    · intro s hs
      rcases List.mem_cons.mp hs with rfl | hs
      · refine ⟨hvmono _ (mem_setInsert.mpr (Or.inl rfl)), ?_⟩
        have hdisL : ∀ t ∈ L, t.signal_index + t.size ≤ s.signal_index ∨
            s.signal_index + s.size ≤ t.signal_index := by
          intro t ht
          exact (hheadL t ht).symm
        rw [hstable s.signal_index s.size hdisL]
        show sliceRead sv s.signal_index s.size = w
        rw [hsv]
        exact sliceRead_assign_self hb₀ hwlen
      · exact hL s hs
    · intro b m hdis
      rw [hstable b m (fun s hs => hdis s (List.mem_cons_of_mem _ hs))]
      show sliceRead sv b m = sliceRead ev.sigV b m
      rw [hsv]
      refine sliceRead_assign_disjoint hb₀ hwlen ?_
      rcases hdis s₀ (List.mem_cons_self s₀ L) with h | h
      · exact Or.inr h
      · exact Or.inl h

theorem C2_helper (fuel : Nat) (ev : Evaluator) (sig : Sig)
    (h1 : sig.signal_index ∉ ev.validSignals)
    (h2 : sig.signal_index ∉ ev.evalSet)
    (hfind : ev.system.findSignal sig.signal_index = some sig)
    (hval : sig.value = .fnV (.portVal sig.signal_index)) :
    (get_port_value (fuel + 2) ev sig).1 = .error .algebraicLoop := by
  rw [get_port_value_succ]
  rw [if_neg h1, if_neg h2]
  simp only [hval, evalUserFn, evalExprWith, hfind]
  rw [get_port_value_succ]
  rw [if_neg h1, if_pos (mem_setInsert.mpr (Or.inl rfl))]

theorem get_port_value_error_in_set (fuel : Nat) (ev : Evaluator) (sig : Sig)
    (hwf : Sys.WF ev.system)
    (hlen : ev.sigV.length = ev.system.num_signals)
    (hv : sig.signal_index ∉ ev.validSignals)
    (hes : sig.signal_index ∉ ev.evalSet) :
    ∀ er ev', get_port_value (fuel + 1) ev sig = (.error er, ev') →
      sig.signal_index ∈ ev'.evalSet := by
  intro er ev' h
  rw [get_port_value_succ, if_neg hv, if_neg hes] at h
  cases hval : sig.value with
  | constV v0 =>
    simp only [hval] at h
    cases hrs : npReshape v0 sig.shape with
    | error er₂ =>
      simp only [hrs] at h
      injection h with h₁ h₂
      rw [← h₂]
      exact mem_setInsert.mpr (Or.inl rfl)
    | ok sv =>
      simp only [hrs] at h
      cases hassign : npSliceAssign ev.sigV sig.signal_index sig.size sv with
      | error er₂ =>
        simp only [hassign] at h
        injection h with h₁ h₂
        rw [← h₂]
        exact mem_setInsert.mpr (Or.inl rfl)
      | ok sigV' =>
        simp only [hassign] at h
        cases h
  | fnV e0 =>
    simp only [hval] at h
    set evb : Evaluator :=
      { ev with evalSet := setInsert sig.signal_index ev.evalSet,
                evalStack := sig.signal_index :: ev.evalStack,
                callLog := ev.callLog ++ [sig.signal_index] } with hevb
    have hmemb : sig.signal_index ∈ evb.evalSet :=
      mem_setInsert.mpr (Or.inl rfl)
    obtain ⟨hbstep, _⟩ := evalUserFn_master fuel e0 evb hwf hlen
    rcases hbeq : evalUserFn fuel e0 evb with ⟨bres, ev₂⟩
    rw [hbeq] at hbstep h
    have hmem₂ : sig.signal_index ∈ ev₂.evalSet :=
      hbstep.evalset_mono _ hmemb
    cases bres with
    | error er₂ =>
      injection h with h₁ h₂
      rw [← h₂]
      exact hmem₂
    | ok raw =>
      cases hrs : npReshape raw sig.shape with
      | error er₂ =>
        simp only [hrs] at h
        injection h with h₁ h₂
        rw [← h₂]
        exact hmem₂
      | ok sv =>
        simp only [hrs] at h
        cases hassign : npSliceAssign ev₂.sigV sig.signal_index sig.size sv with
        | error er₂ =>
          simp only [hassign] at h
          injection h with h₁ h₂
          rw [← h₂]
          exact hmem₂
        | ok sigV' =>
          simp only [hassign] at h
          cases h

/-- C2: for every Evaluator, requesting the value of a signal whose
evaluation is already in progress — in particular a signal `A` whose
value function demands `A` itself — raises the `AlgebraicLoop` error
from `get_port_value`, rather than returning a value.  The first
conjunct is the general re-entry property (a not-yet-valid signal that
is in the evaluation set errors immediately); the second settles the
self-referential signal `A` with value `f(A)` on a fresh evaluator of
any system containing it. -/
theorem C2_algebraic_loop :
    (∀ (fuel : Nat) (ev : Evaluator) (sig : Sig),
      sig.signal_index ∉ ev.validSignals →
      sig.signal_index ∈ ev.evalSet →
      (get_port_value (fuel + 1) ev sig).1 = .error .algebraicLoop) ∧
    (∀ (time : ℚ) (sys : Sys) (st : Option (List ℚ)) (sig : Sig) (fuel : Nat),
      sys.findSignal sig.signal_index = some sig →
      sig.value = .fnV (.portVal sig.signal_index) →
      (get_port_value (fuel + 2) (Evaluator.init time sys st) sig).1 =
        .error .algebraicLoop) := by
  constructor
  · intro fuel ev sig hv hes
    rw [get_port_value_succ, if_neg hv, if_pos hes]
  · intro time sys st sig fuel hfind hval
    exact C2_helper fuel (Evaluator.init time sys st) sig
      (by simp [Evaluator.init]) (by simp [Evaluator.init]) hfind hval

/-- C2 witness: the spec's scenario S3 on the concrete system `c2sys`. -/
theorem C2_witness :
    (get_port_value 5 (Evaluator.init 0 c2sys none) c2sigA).1 =
      .error .algebraicLoop :=
  C2_algebraic_loop.2 0 c2sys none c2sigA 3 (by rfl) (by rfl)

/-- C3 counterexample: evaluating the signal of `c3sys` fails (its
constant has the wrong size for its declared shape), and after the
failure the signal is STILL in the evaluation set — the claim's "the
evaluation set no longer contains that signal" is false, because the
source removes the signal only on the success path (there is no
`try`/`finally`). -/
theorem C3_counterexample :
    (get_port_value 3 (Evaluator.init 0 c3sys none) c3sig).1 =
      .error .valueError ∧
    0 ∈ (get_port_value 3 (Evaluator.init 0 c3sys none) c3sig).2.evalSet ∧
    0 ∉ (get_port_value 3 (Evaluator.init 0 c3sys none) c3sig).2.validSignals := by
  with_unfolding_all decide

/-- C3 (amended): when an evaluation that was not already in progress
COMPLETES SUCCESSFULLY, the signal is removed from the evaluation set and
added to the validated set with its value stored in the flat signal
vector; when the evaluation FAILS (an error from the value function, a
dependency, or the reshape), the signal REMAINS in the evaluation set. -/
theorem C3_amended (fuel : Nat) (ev : Evaluator) (sig : Sig)
    (hwf : Sys.WF ev.system) (hmem : sig ∈ ev.system.signals)
    (hlen : ev.sigV.length = ev.system.num_signals)
    (hes : sig.signal_index ∉ ev.evalSet) :
    (∀ v ev', get_port_value (fuel + 1) ev sig = (.ok v, ev') →
      sig.signal_index ∉ ev'.evalSet ∧
      sig.signal_index ∈ ev'.validSignals ∧
      sliceRead ev'.sigV sig.signal_index sig.size = v) ∧
    (∀ er ev', get_port_value (fuel + 1) ev sig = (.error er, ev') →
      sig.signal_index ∈ ev'.evalSet) := by
  constructor
  · intro v ev' h
    obtain ⟨_, hok⟩ := get_port_value_master (fuel + 1) ev sig hwf hmem hlen
    obtain ⟨hval, _, hslice, hset, _⟩ := hok v ev' h
    exact ⟨by rw [hset]; exact hes, hval, hslice⟩
  · intro er ev' h
    by_cases hv : sig.signal_index ∈ ev.validSignals
    · rw [get_port_value_succ, if_pos hv] at h
      have hb : sig.signal_index + sig.size ≤ ev.sigV.length := by
        rw [hlen]; exact hwf.signal_bound hmem
      rw [npReshape_of_length (by rw [sliceRead_in_bounds_length hb]; rfl)] at h
      cases h
    · exact get_port_value_error_in_set fuel ev sig hwf hlen hv hes er ev' h

/-- C3 witness: a successful evaluation on `c9sys` leaves the signal out
of the evaluation set, validated, and stored. -/
theorem C3_witness :
    0 ∉ (get_port_value 3 (Evaluator.init 0 c9sys none) c9sIn).2.evalSet ∧
    0 ∈ (get_port_value 3 (Evaluator.init 0 c9sys none) c9sIn).2.validSignals ∧
    sliceRead (get_port_value 3 (Evaluator.init 0 c9sys none) c9sIn).2.sigV
      0 1 = [99] :=
  (C3_amended 2 (Evaluator.init 0 c9sys none) c9sIn (by decide) (by decide)
      (by decide) (by decide)).1 [99]
    (get_port_value 3 (Evaluator.init 0 c9sys none) c9sIn).2
    (by with_unfolding_all decide)

/-- C4 counterexample: the spec's scenario S5 — a state with declared
shape `(2,)` whose derivative returns a scalar — fails with the GENERIC
numpy reshape `ValueError`, not with the distinct `ShapeMismatch`
variant the claim names. -/
theorem C4_counterexample :
    (get_state_derivative 3 (Evaluator.init 0 c4sys none) c4st).1 =
      .error .valueError ∧
    (get_state_derivative 3 (Evaluator.init 0 c4sys none) c4st).1 ≠
      .error .shapeMismatch := by
  with_unfolding_all decide

/-- C4 (amended): a user-function result whose size cannot be coerced to
the declared shape makes `state_derivative` / `signal_value` fail, but
with the generic numpy reshape `ValueError` rather than a distinct
`ShapeMismatch` error variant. -/
theorem C4_amended :
    (∀ (fuel : Nat) (ev ev₁ : Evaluator) (st : StateVar) (raw : List ℚ),
      st.state_index ∉ ev.validDerivs →
      evalUserFn fuel st.derivative_function ev = (.ok raw, ev₁) →
      raw.length ≠ st.size →
      get_state_derivative fuel ev st = (.error .valueError, ev₁)) ∧
    (∀ (fuel : Nat) (ev ev₁ : Evaluator) (sig : Sig) (e : Expr)
        (raw : List ℚ),
      sig.signal_index ∉ ev.validSignals →
      sig.signal_index ∉ ev.evalSet →
      sig.value = .fnV e →
      evalUserFn fuel e
        { ev with evalSet := setInsert sig.signal_index ev.evalSet,
                  evalStack := sig.signal_index :: ev.evalStack,
                  callLog := ev.callLog ++ [sig.signal_index] } =
        (.ok raw, ev₁) →
      raw.length ≠ sig.size →
      get_port_value (fuel + 1) ev sig = (.error .valueError, ev₁)) ∧
    (∀ (fuel : Nat) (ev : Evaluator) (sig : Sig) (raw : List ℚ),
      sig.signal_index ∉ ev.validSignals →
      sig.signal_index ∉ ev.evalSet →
      sig.value = .constV raw →
      raw.length ≠ sig.size →
      (get_port_value (fuel + 1) ev sig).1 = .error .valueError) := by
  refine ⟨?_, ?_, ?_⟩
  · intro fuel ev ev₁ st raw hv hueq hlen
    unfold get_state_derivative
    rw [if_neg hv, hueq]
    have hrs : npReshape raw st.shape = .error .valueError := by
      unfold npReshape
      rw [if_neg (show raw.length ≠ st.shape.prod from hlen)]
    simp only [hrs]
  · intro fuel ev ev₁ sig e raw hv hes hval hueq hlen
    rw [get_port_value_succ, if_neg hv, if_neg hes]
    simp only [hval, hueq]
    have hrs : npReshape raw sig.shape = .error .valueError := by
      unfold npReshape
      rw [if_neg (show raw.length ≠ sig.shape.prod from hlen)]
    simp only [hrs]
  · intro fuel ev sig raw hv hes hval hlen
    rw [get_port_value_succ, if_neg hv, if_neg hes]
    simp only [hval]
    have hrs : npReshape raw sig.shape = .error .valueError := by
      unfold npReshape
      rw [if_neg (show raw.length ≠ sig.shape.prod from hlen)]
    simp only [hrs]

/-- C4 witness: the concrete S5 state system and the concrete
value-function signal system through the amended theorem. -/
theorem C4_witness :
    get_state_derivative 3 (Evaluator.init 0 c4sys none) c4st =
      (.error .valueError, Evaluator.init 0 c4sys none) ∧
    get_port_value 4 (Evaluator.init 0 c4sigsys none) c4sig =
      (.error .valueError,
        { Evaluator.init 0 c4sigsys none with
            evalSet := [0], evalStack := [0], callLog := [0] }) :=
  ⟨C4_amended.1 3 (Evaluator.init 0 c4sys none) (Evaluator.init 0 c4sys none)
      c4st [0] (by decide) (by with_unfolding_all decide) (by decide),
   C4_amended.2.1 3 (Evaluator.init 0 c4sigsys none)
      { Evaluator.init 0 c4sigsys none with
          evalSet := [0], evalStack := [0], callLog := [0] }
      c4sig (.constE [0]) [0] (by decide) (by decide) (by rfl)
      (by with_unfolding_all decide) (by decide)⟩

/-- C10: constructing an Evaluator without a state vector behaves exactly
as if the zero vector of length `num_states` had been supplied (the two
constructions yield the SAME evaluator, so all signal, derivative and
event evaluations see the zero state values), and `get_state_value` of
any in-bounds State returns the zero array of that State's size. -/
theorem C10_default_state (time : ℚ) (sys : Sys) :
    Evaluator.init time sys none =
      Evaluator.init time sys (some (List.replicate sys.num_states 0)) ∧
    ∀ st ∈ sys.states, st.state_index + st.size ≤ sys.num_states →
      (Evaluator.init time sys none).get_state_value st =
        .ok (List.replicate st.size 0) := by
  constructor
  · rfl
  · intro st _ hb
    show npReshape (sliceRead (List.replicate sys.num_states 0)
      st.state_index st.size) st.shape = .ok (List.replicate st.size 0)
    have h1 : sliceRead (List.replicate sys.num_states (0 : ℚ))
        st.state_index st.size = List.replicate st.size 0 := by
      unfold sliceRead
      rw [List.drop_replicate, List.take_replicate]
      congr 1
      omega
    rw [h1]
    exact npReshape_of_length (by rw [List.length_replicate]; rfl)

/-- C10 witness: on the concrete one-state system `c7sys`. -/
theorem C10_witness :
    (Evaluator.init 0 c7sys none).get_state_value c7st =
      .ok (List.replicate c7st.size 0) :=
  (C10_default_state 0 c7sys).2 c7st (by decide) (by decide)

/-- C6: on a system with `num_inputs = 2` and `num_outputs = 0`, the
`inputs` property raises a broadcast `ValueError` instead of returning
the dense length-2 input vector, because the source allocates the
accumulator as `np.empty(self.system.num_outputs)` instead of
`np.empty(self.system.num_inputs)` — evaluating the code at the failing
input of the code-bug report. -/
theorem C6_inputs_wrong_width :
    c6sys.num_inputs = 2 ∧ c6sys.num_outputs = 0 ∧
    (Evaluator.inputs 3 (Evaluator.init 0 c6sys none)).1 =
      .error .valueError := by
  with_unfolding_all decide

/-- C8: if the pluggable integrator's `step()` reports a failure message,
`Simulator.step` returns exactly that message and the simulator is
UNCHANGED — the returned simulator is the input simulator itself, so no
sample is appended and every `current_*` field keeps its prior value. -/
theorem C8_integrator_failure (fuel : Nat) (sim : Simulator)
    (t_bound : Option ℚ) (msg : String)
    (h : (sim.integrator_constructor (sim.state_derivative fuel)
        sim.current_time sim.current_state t_bound).message =
      .ok (some msg)) :
    Simulator.step fuel sim t_bound = .ok (some msg, sim) := by
  simp only [Simulator.step, h]
  rfl

/-- C8 witness: an integrator whose `step()` returns `"stiffness"`. -/
theorem C8_witness :
    Simulator.step 1 c8sim none = .ok (some "stiffness", c8sim) :=
  C8_integrator_failure 1 c8sim none "stiffness" rfl

/-- C1 counterexample: in `c1sim` the single event has `direction = -1`
while the crossing is strictly positive-going (the event value goes from
`-1` to `+1` over the integrator step), so by the claim the event must
not be placed in the triggered set and no root-finding or handler
dispatch may happen; yet `Simulator.step` localizes it (the step advances
to the root `1` plus the `1/1000` jitter) and dispatches its handler
(the handler log records event index 0). -/
theorem C1_counterexample :
    c1event.direction = -1 ∧
    c1sim.current_event_values = [-1] ∧
    (Evaluator.event_values 5 (Evaluator.init 2 c1sys (some []))).1 =
      .ok [1] ∧
    (Simulator.step 5 c1sim none).map
      (fun p => (p.1, p.2.handler_log, p.2.current_time)) =
      .ok (none, [0], 1001 / 1000) := by
  with_unfolding_all decide

/-- C1 (amended): in `Simulator.step`, an event counts as triggered over
an integrator step if and only if `sign(last_event_values[e])` differs
from `sign(new_event_values[e])`; the event's `direction` attribute is
not consulted, so sign changes in either direction trigger events of any
declared direction, and root-finding and handler dispatch are performed
exactly for the events in this set. -/
theorem C1_amended (num_events : Nat) (last new : List ℚ) (i : Nat) :
    i ∈ detect_events num_events last new ↔
      i < num_events ∧ npSign (last.getD i 0) ≠ npSign (new.getD i 0) := by
  unfold detect_events
  rw [List.mem_filter, List.mem_range]
  simp [bne_iff_ne]

/-- C5: evaluating the code at the failing input of the code-bug report:
the event of `c5sim` carries a single optional `update_function` (there
is no listener list in the dispatch path of `Simulator.step`), and one
step through the event localizes it and invokes that handler EXACTLY
ONCE — the state-doubling handler turns `[5]` into `[10]` (not `[20]`),
and the dispatch log records exactly one invocation. -/
theorem C5_single_dispatch :
    c5event.update_function.isSome = true ∧
    (Simulator.step 5 c5sim none).map
      (fun p => (p.1, p.2.current_state, p.2.handler_log)) =
      .ok (none, [10], [0]) := by
  with_unfolding_all decide

/-- C7: for an Evaluator at a fixed instant (over a well-formed system,
with its flat vectors of the declared widths), a successful
`signals` evaluation is idempotent — the second call returns the
bit-identical vector and leaves the evaluator untouched — and likewise
for `state_derivative`; moreover the invocation log stays
duplicate-free, i.e. each signal value function ran at most once. -/
theorem C7_memoization (fuel : Nat) (ev : Evaluator)
    (hwf : Sys.WF ev.system)
    (hlen : ev.sigV.length = ev.system.num_signals)
    (hdlen : ev.derivV.length = ev.system.num_states) :
    (∀ v ev₁, Evaluator.signals fuel ev = (.ok v, ev₁) →
      Evaluator.signals fuel ev₁ = (.ok v, ev₁)) ∧
    (∀ v ev₁, Evaluator.state_derivative fuel ev = (.ok v, ev₁) →
      Evaluator.state_derivative fuel ev₁ = (.ok v, ev₁)) ∧
    (LogInv ev → ∀ v ev₁, Evaluator.signals fuel ev = (.ok v, ev₁) →
      ev₁.callLog.Nodup) := by
  have hsig : ∀ v ev₁, Evaluator.signals fuel ev = (.ok v, ev₁) →
      Evaluator.signals fuel ev₁ = (.ok v, ev₁) ∧
      (LogInv ev → ev₁.callLog.Nodup) := by
    intro v ev₁ h
    unfold Evaluator.signals at h
    rcases hfold : signals_fold fuel ev ev.system.signals with ⟨res, evf⟩
    rw [hfold] at h
    cases res with
    | error er => cases h
    | ok uu =>
      injection h with h₁ h₂
      injection h₁ with h₁
      obtain ⟨hstep, hvalid⟩ := signals_fold_master fuel ev.system.signals
        ev hwf (fun s hs => hs) hlen
      rw [hfold] at hstep hvalid
      have hall : ∀ s ∈ ev.system.signals, s.signal_index ∈ evf.validSignals :=
        hvalid evf rfl
      subst h₂
      constructor
      · cases fuel with
        | zero =>
          obtain ⟨hnil, hev⟩ := signals_fold_zero_ok hfold
          unfold Evaluator.signals
          rw [show evf.system = ev.system from hstep.sys_eq, hnil]
          show ((Except.ok evf.sigV, evf) : Except Err (List ℚ) × Evaluator) =
            (.ok v, evf)
          rw [h₁]
        | succ fuel =>
          unfold Evaluator.signals
          rw [hstep.sys_eq]
          rw [signals_fold_all_valid hall (fun s hs => by
            rw [hstep.sig_len, hlen]
            exact hwf.signal_bound hs)]
          rw [← h₁]
      · intro hli
        exact ((hstep.log_inv hli).1)
  refine ⟨fun v ev₁ h => (hsig v ev₁ h).1, ?_,
    fun hli v ev₁ h => (hsig v ev₁ h).2 hli⟩
  intro v ev₁ h
  unfold Evaluator.state_derivative at h
  rcases hfold : derivs_fold fuel ev ev.system.states with ⟨res, evf⟩
  rw [hfold] at h
  cases res with
  | error er => cases h
  | ok uu =>
    injection h with h₁ h₂
    injection h₁ with h₁
    obtain ⟨hstep, hvalid⟩ := derivs_fold_master fuel ev.system.states
      ev hwf hlen
    rw [hfold] at hstep hvalid
    have hall : ∀ s ∈ ev.system.states, s.state_index ∈ evf.validDerivs :=
      hvalid evf rfl
    subst h₂
    unfold Evaluator.state_derivative
    rw [hstep.sys_eq]
    rw [derivs_fold_all_valid hall (fun s hs => by
      rw [hstep.deriv_len, hdlen]
      exact (hwf.2.2.1 s hs).1)]
    rw [← h₁]

/-- C7 witness: on `c7sys` at state `[4]`, a second `signals` call
returns the same `[8]` with the evaluator untouched, and a repeated
`state_derivative` call returns the same `[3]`. -/
theorem C7_witness :
    Evaluator.signals 5
        ((Evaluator.signals 5 (Evaluator.init 0 c7sys (some [4]))).2) =
      (.ok [8], (Evaluator.signals 5 (Evaluator.init 0 c7sys (some [4]))).2) ∧
    Evaluator.state_derivative 5
        ((Evaluator.state_derivative 5 (Evaluator.init 0 c7sys (some [4]))).2) =
      (.ok [3],
        (Evaluator.state_derivative 5 (Evaluator.init 0 c7sys (some [4]))).2) :=
  ⟨(C7_memoization 5 (Evaluator.init 0 c7sys (some [4])) (by decide)
      (by decide) (by decide)).1 [8]
      (Evaluator.signals 5 (Evaluator.init 0 c7sys (some [4]))).2
      (by with_unfolding_all decide),
   (C7_memoization 5 (Evaluator.init 0 c7sys (some [4])) (by decide)
      (by decide) (by decide)).2.1 [3]
      (Evaluator.state_derivative 5 (Evaluator.init 0 c7sys (some [4]))).2
      (by with_unfolding_all decide)⟩

/-- C9: for an Evaluator constructed with an input vector `u` (over a
well-formed system, with `u` of width `num_inputs`), every InputSignal is
preloaded from `u` and marked valid at construction with the invocation
log empty, and after evaluating the full signal vector the input slices
of the result are exactly the corresponding slices of `u` while no
InputSignal's value function was ever invoked. -/
theorem C9_inputs_preloaded (time : ℚ) (sys : Sys) (st : Option (List ℚ))
    (u : List ℚ) (ev : Evaluator) (hwf : Sys.WF sys)
    (hu : u.length = sys.num_inputs)
    (hinit : Evaluator.initWithInputs time sys st u = .ok ev) :
    (∀ s ∈ sys.inputs, s.signal_index ∈ ev.validSignals ∧
      sliceRead ev.sigV s.signal_index s.size =
        sliceRead u (s.input_index.getD 0) s.size) ∧
    ev.callLog = [] ∧
    ∀ fuel v ev₁, Evaluator.signals fuel ev = (.ok v, ev₁) →
      ∀ s ∈ sys.inputs, sliceRead v s.signal_index s.size =
        sliceRead u (s.input_index.getD 0) s.size ∧
        s.signal_index ∉ ev₁.callLog := by
  have hsub : ∀ s ∈ sys.inputs,
      s ∈ (Evaluator.init time sys st).system.signals := by
    intro s hs
    exact (List.mem_filter.mp hs).1
  have hsome : ∀ s ∈ sys.inputs, s.input_index.isSome := by
    intro s hs
    simpa using (List.mem_filter.mp hs).2
  have hpair : sys.inputs.Pairwise (fun a b =>
      a.signal_index + a.size ≤ b.signal_index ∨
      b.signal_index + b.size ≤ a.signal_index) :=
    hwf.2.1.sublist (List.filter_sublist _)
  obtain ⟨ev', hfold, hsys, htime, hstate, hderiv, hvd, hevv, hve, hset,
      hstack, hlog, hlen', hvmono, hL, hstable⟩ :=
    preloadFold_master u sys.inputs (Evaluator.init time sys st) hwf hsub
      hsome hpair (by simp [Evaluator.init]) hu
  unfold Evaluator.initWithInputs at hinit
  rw [hinit] at hfold
  injection hfold with hfold
  subst hfold
  have hevsys : ev.system = sys := hsys
  have hevlen : ev.sigV.length = ev.system.num_signals := by
    rw [hevsys, hlen']
    simp [Evaluator.init]
  have hevlog : ev.callLog = [] := hlog
  refine ⟨hL, hevlog, ?_⟩
  intro fuel v ev₁ h
  unfold Evaluator.signals at h
  rcases hf : signals_fold fuel ev ev.system.signals with ⟨res, evf⟩
  rw [hf] at h
  cases res with
  | error er => cases h
  | ok uu =>
    injection h with h₁ h₂
    injection h₁ with h₁
    obtain ⟨hstep, _⟩ := signals_fold_master fuel ev.system.signals ev
      (by rw [hevsys]; exact hwf) (fun s hs => hs) hevlen
    rw [hf] at hstep
    subst h₂
    intro s hs
    have hmem : s ∈ ev.system.signals := by
      rw [hevsys]
      exact (List.mem_filter.mp hs).1
    have hvalid : s.signal_index ∈ ev.validSignals := (hL s hs).1
    constructor
    · rw [← h₁]
      rw [hstep.slice_stable s hmem hvalid]
      exact (hL s hs).2
    · intro hlogmem
      rcases hstep.log_new _ hlogmem with hx | hx
      · rw [hevlog] at hx
        cases hx
      · exact hx hvalid

/-- C9 witness: constructing on `c9sys` with `u = [7]` preloads the
input; reading the input slice of the evaluated full signal vector
`[7, 7]` returns `[7]`, and the input's value function (which would have
produced 99) never ran. -/
theorem C9_witness :
    sliceRead [7, 7] c9sIn.signal_index c9sIn.size =
      sliceRead [7] (c9sIn.input_index.getD 0) c9sIn.size ∧
    c9sIn.signal_index ∉ ((Evaluator.signals 5 c9ev).2).callLog :=
  (C9_inputs_preloaded 0 c9sys none [7] c9ev (by decide) (by decide)
      (by with_unfolding_all decide)).2.2 5 [7, 7]
    (Evaluator.signals 5 c9ev).2 (by with_unfolding_all decide) c9sIn
    (by decide)

end Simtree
